import Mathlib

/-!
Verification of the supadata SDK (automotive_diagnostic_data_analysis repository,
vendored package `supadata`): a shallow embedding in Lean 4 of the data
normalization, validation, dispatch and reconstruction logic from
`supadata/client.py`, `supadata/youtube.py`, `supadata/web.py`,
`supadata/types.py` and `supadata/errors.py`, together with theorems that
settle the specification claims about that code.

Python values flowing through the SDK are JSON-shaped: we embed them as the
mutual inductive `Json` / `JsonList` / `JsonObj` below (objects keep insertion
order, as Python dicts do).  Machine details that no claim observes are noted
at the definition that abstracts them.
-/

set_option maxRecDepth 4096

namespace Supadata

mutual

/-- A JSON-shaped Python value: `null`, `bool`, `int`, `str`, `list`, `dict`.
Numbers are integers (the SDK never produces floats in the code under
verification). -/
inductive Json where
  | null : Json
  | bool : Bool → Json
  | num : Int → Json
  | str : String → Json
  | arr : JsonList → Json
  | obj : JsonObj → Json
deriving DecidableEq

/-- A list of JSON values (a Python `list`). -/
inductive JsonList where
  | nil : JsonList
  | cons : Json → JsonList → JsonList
deriving DecidableEq

/-- An ordered association of string keys to JSON values (a Python `dict`
in insertion order; well-formed dicts have pairwise distinct keys). -/
inductive JsonObj where
  | onil : JsonObj
  | ocons : String → Json → JsonObj → JsonObj
deriving DecidableEq

end

namespace JsonObj

/-- Keys of an object, in order. -/
def okeys : JsonObj → List String
  | .onil => []
  | .ocons k _ rest => k :: okeys rest

/-- Python `k in d`. -/
def hasKey (o : JsonObj) (k : String) : Bool :=
  match o with
  | .onil => false
  | .ocons k' _ rest => k' = k || hasKey rest k

/-- Python `d.get(k)`: value of the first (only, for a real dict) binding. -/
def get (o : JsonObj) (k : String) : Option Json :=
  match o with
  | .onil => none
  | .ocons k' v rest => if k' = k then some v else get rest k

/-- Python `d.get(k, default)`. -/
def getD (o : JsonObj) (k : String) (d : Json) : Json :=
  match o with
  | .onil => d
  | .ocons k' v rest => if k' = k then v else getD rest k d

/-- Remove every binding of key `k` (models `d.pop(k, ...)`'s effect on `d`). -/
def removeKey (o : JsonObj) (k : String) : JsonObj :=
  match o with
  | .onil => .onil
  | .ocons k' v rest => if k' = k then removeKey rest k else .ocons k' v (removeKey rest k)

/-- Append two objects (metatheory helper, not a Python operation). -/
def oappend (o₁ o₂ : JsonObj) : JsonObj :=
  match o₁ with
  | .onil => o₂
  | .ocons k v rest => .ocons k v (oappend rest o₂)

/-- Python `d[k] = v` on a dict: update in place if the key is present,
append otherwise. -/
def dictInsert (o : JsonObj) (k : String) (v : Json) : JsonObj :=
  match o with
  | .onil => .ocons k v .onil
  | .ocons k' v' rest => if k' = k then .ocons k' v rest else .ocons k' v' (dictInsert rest k v)

/-- Build a Python dict from a sequence of key/value pairs by successive
insertion (the semantics of a dict comprehension: first-occurrence position,
last value wins). -/
def dictBuild (acc : JsonObj) : JsonObj → JsonObj
  | .onil => acc
  | .ocons k v rest => dictBuild (dictInsert acc k v) rest

end JsonObj

namespace JsonList

/-- Length of an embedded list. -/
def jlen : JsonList → Nat
  | .nil => 0
  | .cons _ rest => 1 + jlen rest

end JsonList

/-- Python truthiness of a JSON-shaped value (`bool(x)`). -/
def truthy : Json → Bool
  | .null => false
  | .bool b => b
  | .num n => n ≠ 0
  | .str s => s ≠ ""
  | .arr .nil => false
  | .arr (.cons _ _) => true
  | .obj .onil => false
  | .obj (.ocons _ _ _) => true

/-!
Key conversion, from `Supadata._camel_to_snake` (client.py lines 72-83):

    def convert(name: str) -> str:
        name = re.sub('(.)([A-Z][a-z]+)', r'\1_\2', name)
        return re.sub('([a-z0-9])([A-Z])', r'\1_\2', name).lower()

Both substitutions are embedded as left-to-right, non-overlapping scans over
the character list, exactly as `re.sub` performs them.  The character classes
`[A-Z]`, `[a-z]`, `[0-9]` are ASCII (matching Python `re` on these ASCII-only
patterns), and `.` matches any character except a newline.  `str.lower` is
modelled by `Char.toLower`, which lowercases exactly the ASCII uppercase
letters; no key handled by any claim contains non-ASCII cased letters, for
which Python would also lowercase and this model would not.
-/

mutual

/-- First substitution `re.sub('(.)([A-Z][a-z]+)', r'\1_\2', name)`: at each
position, if some character (not a newline) is followed by an uppercase letter
and then at least one lowercase letter, insert an underscore after that
character; the match greedily consumes the maximal lowercase run (`skipRun`)
and the scan resumes after it. -/
def sub1 : List Char → List Char
  | [] => []
  | [c] => [c]
  | [c, u] => [c, u]
  | c :: u :: d :: tl =>
    if c ≠ '\n' ∧ u.isUpper ∧ d.isLower then
      c :: '_' :: u :: d :: skipRun tl
    else
      c :: sub1 (u :: d :: tl)

/-- Copy the maximal lowercase run just matched by `[a-z]+`, then resume the
`sub1` scan at the first character after it (which may itself start the next
match). -/
def skipRun : List Char → List Char
  | [] => []
  | [c] => [c]
  | [c, u] => if c.isLower then c :: skipRun [u] else [c, u]
  | c :: u :: d :: tl =>
    if c.isLower then c :: skipRun (u :: d :: tl)
    else if c ≠ '\n' ∧ u.isUpper ∧ d.isLower then
      c :: '_' :: u :: d :: skipRun tl
    else c :: sub1 (u :: d :: tl)

end

/-- Second substitution `re.sub('([a-z0-9])([A-Z])', r'\1_\2', name)`: insert
an underscore between a lowercase letter or digit and an uppercase letter;
the scan resumes after the matched pair. -/
def sub2 : List Char → List Char
  | [] => []
  | [c] => [c]
  | a :: b :: tl =>
    if (a.isLower || a.isDigit) && b.isUpper then
      a :: '_' :: b :: sub2 tl
    else
      a :: sub2 (b :: tl)

/-- The full key conversion on character lists: both substitutions, then
ASCII lowercasing. -/
def convertL (l : List Char) : List Char :=
  (sub2 (sub1 l)).map Char.toLower

/-- The `convert` closure of `Supadata._camel_to_snake` on strings. -/
def convertStr (s : String) : String :=
  ⟨convertL s.data⟩

mutual

/-- The recursive body of `Supadata._camel_to_snake`: dicts are rebuilt as a
dict comprehension over converted keys and recursively converted values,
lists map the conversion over their elements, and every other value is
returned unchanged. -/
def camelToSnake : Json → Json
  | .obj kvs => .obj (JsonObj.dictBuild .onil (camelToSnakeObj kvs))
  | .arr xs => .arr (camelToSnakeArr xs)
  | .str s => .str s
  | .num n => .num n
  | .bool b => .bool b
  | .null => .null

/-- Elementwise conversion of a list (the `isinstance(d, list)` branch). -/
def camelToSnakeArr : JsonList → JsonList
  | .nil => .nil
  | .cons x xs => .cons (camelToSnake x) (camelToSnakeArr xs)

/-- Pairwise conversion of the items of a dict, before dict rebuilding. -/
def camelToSnakeObj : JsonObj → JsonObj
  | .onil => .onil
  | .ocons k v rest => .ocons (convertStr k) (camelToSnake v) (camelToSnakeObj rest)

end

/-!
Uniform error type, from `supadata/errors.py`.  The dataclass performs no
validation, so each field holds whatever JSON-shaped value the keyword
arguments carried; local raises always pass strings.  `documentation_url`
defaults to Python `None`, embedded as `Json.null`.
-/

/-- The `SupadataError` dataclass: code, human message, details, optional
documentation link. -/
structure SupadataErrorR where
  error : Json
  message : Json
  details : Json
  documentation_url : Json := .null
deriving DecidableEq

/-- Build a `SupadataError(**kwargs)` from a JSON-shaped value.  Construction
succeeds exactly when the value is a dict whose keys include `error`,
`message` and `details` and are contained in the four field names; any other
shape raises `TypeError` in Python, embedded as `none`. -/
def mkSupadataError (j : Json) : Option SupadataErrorR :=
  match j with
  | .obj o =>
    if o.hasKey "error" && o.hasKey "message" && o.hasKey "details"
        && (o.okeys.all fun k =>
             k = "error" || k = "message" || k = "details" || k = "documentation_url") then
      some { error := o.getD "error" .null
             message := o.getD "message" .null
             details := o.getD "details" .null
             documentation_url := o.getD "documentation_url" .null }
    else none
  | _ => none

/-!
Limit validation, from `YouTube._validate_limit` (youtube.py lines 373-382).
The argument is any Python value; `isinstance(limit, int)` holds for `int`
and (by subclassing) `bool`, where `False` counts as 0 and `True` as 1.
-/

/-- The error raised by `_validate_limit`. -/
def invalidLimitError : SupadataErrorR :=
  { error := .str "invalid-request"
    message := .str "Invalid limit provided."
    details := .str "Limit must be a positive integer up to 5000." }

/-- Model of `YouTube._validate_limit`: `none` result means the check passed,
`some e` means `e` was raised.  `Option Json` input: `none` is Python `None`
(pass immediately), otherwise the value must be an `int` (or `bool`) in
`(0, 5000]`. -/
def validateLimit (limit : Option Json) : Option SupadataErrorR :=
  match limit with
  | none => none
  | some (.num n) => if n ≤ 0 ∨ 5000 < n then some invalidLimitError else none
  | some (.bool b) => if b then none else some invalidLimitError
  | some _ => some invalidLimitError

/-!
Batch source validation and payload construction, from
`YouTube._validate_batch_sources` (youtube.py lines 384-426), and the batch
creation helpers `_create_video_batch` / `_create_transcript_batch`
(lines 435-451).  Parameters are typed as the signatures declare them:
`video_ids : Optional[List[str]]`, `playlist_id`, `channel_id`, `lang :
Optional[str]`, `limit` any value (validated), `text : Optional[bool]`.
-/

/-- The error raised when no source is supplied. -/
def missingSourceError : SupadataErrorR :=
  { error := .str "invalid-request"
    message := .str "Missing source."
    details := .str "One of video_ids, playlist_id, or channel_id must be provided." }

/-- The error raised when more than one source is supplied. -/
def multipleSourcesError : SupadataErrorR :=
  { error := .str "invalid-request"
    message := .str "Multiple sources."
    details := .str "Only one of video_ids, playlist_id, or channel_id can be provided." }

/-- Lift an embedded string list to a JSON value. -/
def strListToJson : List String → JsonList
  | [] => .nil
  | s :: rest => .cons (.str s) (strListToJson rest)

/-- Python truthiness of the optional video-id list argument (an empty list
is falsy). -/
def idsTruthy : Option (List String) → Bool
  | some (_ :: _) => true
  | _ => false

/-- Python truthiness of an optional string argument (the empty string is
falsy). -/
def optStrTruthy : Option String → Bool
  | some s => s ≠ ""
  | none => false

/-- The number of truthy sources `_validate_batch_sources` counts. -/
def sourceCount (video_ids : Option (List String))
    (playlist_id channel_id : Option String) : Nat :=
  (if idsTruthy video_ids then 1 else 0) + (if optStrTruthy playlist_id then 1 else 0)
    + (if optStrTruthy channel_id then 1 else 0)

/-- The payload entries added by the three truthy-source checks, in the
order the source inserts them. -/
def basePayload (video_ids : Option (List String))
    (playlist_id channel_id : Option String) : List (String × Json) :=
  (match video_ids with
   | some ids => if ids ≠ [] then [("videoIds", Json.arr (strListToJson ids))] else []
   | none => []) ++
  (match playlist_id with
   | some s => if s ≠ "" then [("playlistId", Json.str s)] else []
   | none => []) ++
  (match channel_id with
   | some s => if s ≠ "" then [("channelId", Json.str s)] else []
   | none => [])

/-- Model of `YouTube._validate_batch_sources`: builds the outgoing request
payload (an ordered dict, embedded as a key/value list) or raises.  A source
counts only when truthy: a non-empty id list, a non-empty id string.  A
limit, when supplied and valid, is attached only when the playlist or
channel source is the truthy one. -/
def validateBatchSources (video_ids : Option (List String))
    (playlist_id channel_id : Option String) (limit : Option Json) :
    Except SupadataErrorR (List (String × Json)) :=
  if sourceCount video_ids playlist_id channel_id = 0 then .error missingSourceError
  else if 1 < sourceCount video_ids playlist_id channel_id then .error multipleSourcesError
  else
    match limit with
    | none => .ok (basePayload video_ids playlist_id channel_id)
    | some l =>
      match validateLimit (some l) with
      | some e => .error e
      | none =>
        if optStrTruthy playlist_id || optStrTruthy channel_id then
          .ok (basePayload video_ids playlist_id channel_id ++ [("limit", l)])
        else .ok (basePayload video_ids playlist_id channel_id)

/-- Model of `YouTube._create_video_batch`: validate, then dispatch the
payload as the POST body.  The dispatch behavior is a parameter so that
theorems can quantify over the remote side; a validation error short-circuits
before any request is made. -/
def createVideoBatch (dispatch : List (String × Json) → Except SupadataErrorR Json)
    (video_ids : Option (List String)) (playlist_id channel_id : Option String)
    (limit : Option Json) : Except SupadataErrorR Json :=
  match validateBatchSources video_ids playlist_id channel_id limit with
  | .error e => .error e
  | .ok payload => dispatch payload

/-- Model of `YouTube._create_transcript_batch`: like the video batch but
appending truthy `lang` and `text` entries (`str(text).lower()` is `"true"`
for `True`; `False` is falsy and never added). -/
def createTranscriptBatch (dispatch : List (String × Json) → Except SupadataErrorR Json)
    (video_ids : Option (List String)) (playlist_id channel_id : Option String)
    (limit : Option Json) (lang : Option String) (text : Option Bool) :
    Except SupadataErrorR Json :=
  match validateBatchSources video_ids playlist_id channel_id limit with
  | .error e => .error e
  | .ok payload =>
    let payload := payload ++
      (match lang with
       | some s => if s ≠ "" then [("lang", Json.str s)] else []
       | none => []) ++
      (match text with
       | some b => if b then [("text", Json.str "true")] else []
       | none => [])
    dispatch payload

/-!
Playlist video listing, from `_Playlist.videos` (youtube.py lines 125-152).
The method body reads

    query_params = {"id": id}
    if limit:
        query_params["limit"] = limit
    if type:
        query_params["type"] = type

with no `type` parameter in scope: `type` is the Python builtin class, which
is always truthy, so a `type` entry whose value is that class object is
always added.  Query values are therefore either JSON-shaped values or that
builtin class object. -/
inductive QueryVal where
  | val : Json → QueryVal
  | pyBuiltinType : QueryVal
deriving DecidableEq

/-- Model of `_Playlist.videos` up to the dispatch boundary: validates the
limit, then returns the query parameters sent with the GET request to
`/youtube/playlist/videos`. -/
def playlistVideosParams (id : String) (limit : Option Json) :
    Except SupadataErrorR (List (String × QueryVal)) :=
  match validateLimit limit with
  | some e => .error e
  | none =>
    let qp := [("id", QueryVal.val (.str id))]
    let qp := qp ++
      (match limit with
       | some l => if truthy l then [("limit", QueryVal.val l)] else []
       | none => [])
    let qp := qp ++ [("type", QueryVal.pyBuiltinType)]
    .ok qp

/-!
Request dispatcher, from `Supadata._request` and
`Supadata._handle_gateway_error` (client.py lines 35-124).

An HTTP response is embedded as its status code together with the result of
parsing its body as JSON: `none` when the text is not valid JSON (so
`response.json()` raises `ValueError`), `some b` otherwise.
`_handle_gateway_error` parses the same text a second time, so it sees the
same result.
-/

/-- An HTTP response as the dispatcher observes it. -/
structure HttpResponse where
  status : Nat
  body : Option Json
deriving DecidableEq

/-- Every way `_request` can finish: a success value, a raised
`SupadataError`, a propagated `requests` `HTTPError` (carrying its response
status), a propagated JSON decode `ValueError`, or a propagated `TypeError`
from constructing `SupadataError(**...)` with a malformed mapping. -/
inductive ReqOutcome where
  | ok : Json → ReqOutcome
  | supadata : SupadataErrorR → ReqOutcome
  | httpError : Nat → ReqOutcome
  | jsonError : ReqOutcome
  | typeError : ReqOutcome
deriving DecidableEq

/-- Does `needle` begin `hay`? -/
def beginsWith : List Char → List Char → Bool
  | [], _ => true
  | _ :: _, [] => false
  | n :: ns, h :: hs => n = h && beginsWith ns hs

/-- Python substring containment `needle in hay`. -/
def hasSub (needle hay : List Char) : Bool :=
  match hay with
  | [] => needle.isEmpty
  | _ :: rest => beginsWith needle hay || hasSub needle rest

/-- Python `'/transcript' in path`. -/
def isTranscriptPath (path : String) : Bool :=
  hasSub "/transcript".data path.data

/-- The `message` field extracted by `_handle_gateway_error` from the error
text: `''` when the text is not JSON or the parse is not a dict (the
`ValueError` / `AttributeError` fallbacks), the dict's `message` value
otherwise. -/
def gatewayMessage (body : Option Json) : Json :=
  match body with
  | some (.obj o) => o.getD "message" (.str "")
  | _ => .str ""

/-- Python `error_message or default` for the gateway error details. -/
def gatewayDetails (body : Option Json) (default : String) : Json :=
  let m := gatewayMessage body
  if truthy m then m else .str default

/-- The fixed gateway error for a given status (403, 404 or 429). -/
def gatewayError (status : Nat) (body : Option Json) : SupadataErrorR :=
  if status = 403 then
    { error := .str "invalid-request"
      message := .str "Invalid or missing API key"
      details := gatewayDetails body "Please ensure you have provided a valid API key" }
  else if status = 404 then
    { error := .str "not-found"
      message := .str "Endpoint does not exist or resource not found"
      details := gatewayDetails body "The API endpoint you are trying to access does not exist" }
  else
    { error := .str "limit-exceeded"
      message := .str "Limit exceeded"
      details := gatewayDetails body "You have exceeded the allowed request rate or quota limits" }

/-- The synthetic error raised when a transcript request returns 206 with no
structured error in the body. -/
def transcriptUnavailableError : SupadataErrorR :=
  { error := .str "transcript-unavailable"
    message := .str "No Transcript"
    details := .str "No transcript available" }

/-- Membership of a string among the elements of an embedded list
(Python `'error' in [...]`). -/
def jsonListHasStr (l : JsonList) (s : String) : Bool :=
  match l with
  | .nil => false
  | .cons (.str s') rest => s' = s || jsonListHasStr rest s
  | .cons _ rest => jsonListHasStr rest s

/-- The 206 branch of `_request` applied to the already-normalized body:
`if 'error' in error_data: raise SupadataError(**error_data['error'])`,
else raise the synthetic transcript-unavailable error.  Python `in` on a
dict checks keys, on a list membership, on a string substring containment,
and raises `TypeError` on non-iterables; subscripting a list or string with
the string `'error'` raises `TypeError`. -/
def partialContentOf (e : Json) : ReqOutcome :=
  match e with
  | .obj o =>
    match o.get "error" with
    | some ev =>
      match mkSupadataError ev with
      | some err => .supadata err
      | none => .typeError
    | none => .supadata transcriptUnavailableError
  | .arr l =>
    if jsonListHasStr l "error" then .typeError
    else .supadata transcriptUnavailableError
  | .str s =>
    if hasSub "error".data s.data then .typeError
    else .supadata transcriptUnavailableError
  | _ => .typeError

/-- The whole 206 branch of `_request`: `response.json()` (a decode error
when the text is not JSON), normalization, then the error dispatch above. -/
def partialContentOutcome (body : Option Json) : ReqOutcome :=
  match body with
  | none => .jsonError
  | some b => partialContentOf (camelToSnake b)

/-- The success branch of `_request`: `response.raise_for_status()` did not
raise (status outside 400-599), so the parsed body is normalized and
returned; an unparseable body propagates its `ValueError`. -/
def successOutcome (body : Option Json) : ReqOutcome :=
  match body with
  | none => .jsonError
  | some b => .ok (camelToSnake b)

/-- The `except HTTPError` branch of `_request` for an error status: the
body is parsed and normalized; a well-formed error mapping becomes the
uniform `SupadataError`; an unparseable body re-raises the `HTTPError`
unchanged; a parseable body that is not a well-formed error mapping raises
`TypeError` (only `ValueError` and `KeyError` are caught). -/
def errorStatusOutcome (status : Nat) (body : Option Json) : ReqOutcome :=
  match body with
  | none => .httpError status
  | some b =>
    match mkSupadataError (camelToSnake b) with
    | some e => .supadata e
    | none => .typeError

/-- Model of `Supadata._request`, given the path requested and the response
the transport returned.  Gateway statuses raise fixed errors; 206 on a
transcript path is the partial-content branch; statuses outside 400-599
return the normalized body; other 4xx/5xx statuses take the error branch. -/
def request (path : String) (r : HttpResponse) : ReqOutcome :=
  if r.status = 403 ∨ r.status = 404 ∨ r.status = 429 then
    .supadata (gatewayError r.status r.body)
  else if r.status = 206 ∧ isTranscriptPath path then
    partialContentOutcome r.body
  else if r.status < 400 ∨ 600 ≤ r.status then
    successOutcome r.body
  else
    errorStatusOutcome r.status r.body

/-!
Crawl result pagination, from `Web.get_crawl_results` (web.py lines 69-115)
and the `CrawlResponse` / `CrawlPage` dataclasses (types.py).

The remote side is embedded as the list of responses the loop receives on
its successive requests (each already normalized by the dispatcher); the
loop consumes them in order.
-/

/-- The `CrawlPage` record as `get_crawl_results` rebuilds it from a page
dict via `page.get(..., default)`; fields hold raw JSON-shaped values since
the dataclass does not validate. -/
structure CrawlPageR where
  url : Json
  content : Json
  name : Json
  description : Json
  og_url : Json
  count_characters : Json
deriving DecidableEq

/-- Python `CrawlPage(**{...page.get(...)...})` for one page dict; `none`
models the `AttributeError` from calling `.get` on a non-dict page. -/
def toCrawlPage (p : Json) : Option CrawlPageR :=
  match p with
  | .obj o =>
    some { url := o.getD "url" (.str "")
           content := o.getD "content" (.str "")
           name := o.getD "name" (.str "")
           description := o.getD "description" (.str "")
           og_url := o.getD "og_url" .null
           count_characters := o.getD "count_characters" (.num 0) }
  | _ => none

/-- The `CrawlResponse` dataclass: `status` required, `pages` and `next`
defaulting to `None`; fields hold raw JSON-shaped values. -/
structure CrawlRespR where
  status : Json
  pages : Json
  next : Json
deriving DecidableEq

/-- Python `CrawlResponse(**response)`: succeeds exactly when the normalized
response is a dict with a `status` key and no key outside
`{status, pages, next}`; anything else raises `TypeError` (`none`). -/
def mkCrawlResponse (j : Json) : Option CrawlRespR :=
  match j with
  | .obj o =>
    if o.hasKey "status"
        && (o.okeys.all fun k => k = "status" || k = "pages" || k = "next") then
      some { status := o.getD "status" .null
             pages := o.getD "pages" .null
             next := o.getD "next" .null }
    else none
  | _ => none

/-- The error raised on a failed crawl job. -/
def crawlFailedError : SupadataErrorR :=
  { error := .str "crawl-failed"
    message := .str "Crawl job failed"
    details := .str "The crawl job failed to complete" }

/-- Every way `get_crawl_results` can finish: the accumulated pages, the
crawl-failed `SupadataError`, a `TypeError` (bad response shape or iterating
a non-iterable pages value), an `AttributeError` (a page that is not a
dict), or exhaustion of the scripted responses (a model artifact: the real
loop would issue another request). -/
inductive CrawlOutcome where
  | ok : List CrawlPageR → CrawlOutcome
  | failedErr : CrawlOutcome
  | typeErr : CrawlOutcome
  | attrErr : CrawlOutcome
  | noMoreResponses : CrawlOutcome
deriving DecidableEq

/-- Convert the elements of a truthy `pages` list, stopping at the first
non-dict page (`AttributeError`). -/
def collectPages : JsonList → Except CrawlOutcome (List CrawlPageR)
  | .nil => .ok []
  | .cons p rest =>
    match toCrawlPage p with
    | none => .error .attrErr
    | some cp =>
      match collectPages rest with
      | .error e => .error e
      | .ok cps => .ok (cp :: cps)

/-- One candidate `pages` value, as the loop body treats it: falsy values
are skipped, a non-empty list is iterated into `CrawlPage` records, any
other truthy value fails when iterated (strings and dicts iterate into
non-dict elements raising `AttributeError` at `page.get`; numbers and
booleans raise `TypeError` at `for`). -/
def pagesOf (pages : Json) : Except CrawlOutcome (List CrawlPageR) :=
  if truthy pages then
    match pages with
    | .arr l => collectPages l
    | .str _ => .error .attrErr
    | .obj _ => .error .attrErr
    | _ => .error .typeErr
  else .ok []

/-- The `while True` loop of `get_crawl_results` over the scripted
responses, carrying the accumulated pages. -/
def crawlLoop : List Json → List CrawlPageR → CrawlOutcome
  | [], _ => .noMoreResponses
  | r :: rest, acc =>
    match mkCrawlResponse r with
    | none => .typeErr
    | some cr =>
      if cr.status = .str "failed" then .failedErr
      else
        match pagesOf cr.pages with
        | .error e => e
        | .ok newPages =>
          if truthy cr.next then crawlLoop rest (acc ++ newPages)
          else .ok (acc ++ newPages)

/-- Model of `Web.get_crawl_results`: run the pagination loop from an empty
accumulator over the scripted responses. -/
def getCrawlResults (resps : List Json) : CrawlOutcome :=
  crawlLoop resps []

/-!
Batch result reconstruction, from `BatchResults.__post_init__`
(types.py lines 341-384), reached through `_Batch.get_batch_results`
(youtube.py lines 336-352), which passes the normalized response straight to
the `BatchResults` constructor.

The claims inspect only the `results` processing, embedded here in full.
The `completed_at` best-effort ISO-8601 parse and the `upload_date` parse
inside the video branch produce `datetime` values that no claim observes;
the embedding keeps the raw popped JSON value in their place.
-/

/-- The `Transcript` dataclass after `__post_init__`, as constructed by
`Transcript(**transcript_data)`: `content` and `available_langs` fall back
from `None` to empty lists, `lang` defaults to the empty string; no other
validation happens, so fields hold raw JSON-shaped values. -/
structure TranscriptR where
  content : Json
  lang : Json
  available_langs : Json
deriving DecidableEq

/-- Python `Transcript(**td)`: the keys must lie inside
`{content, lang, available_langs}` (all optional); otherwise `TypeError`
(`none`). -/
def mkTranscript (td : JsonObj) : Option TranscriptR :=
  if td.okeys.all fun k => k = "content" || k = "lang" || k = "available_langs" then
    some { content :=
             match td.get "content" with
             | none => .arr .nil
             | some .null => .arr .nil
             | some c => c
           lang := td.getD "lang" (.str "")
           available_langs :=
             match td.get "available_langs" with
             | none => .arr .nil
             | some .null => .arr .nil
             | some c => c }
  else none

/-- The `YoutubeVideo` dataclass after `__post_init__`, as constructed in
the video branch of `BatchResults.__post_init__`.  `uploaded_date` holds the
raw `upload_date` value popped from the dict (`Json.null` when absent); the
`datetime.fromisoformat` parse with its now-fallback is not observed by any
claim and is abstracted away. -/
structure YoutubeVideoR where
  id : Json
  title : Json
  description : Json
  duration : Json
  channel : Json
  tags : Json
  thumbnail : Json
  uploaded_date : Json
  view_count : Json
  like_count : Json
  transcript_languages : Json
deriving DecidableEq

/-- Python `YoutubeVideo(**video_data, uploaded_date=...)` after
`video_data.pop("upload_date", ...)`: requires an `id` key and no key
outside the declared fields (in particular no `uploaded_date` key, which
would duplicate the explicit argument); otherwise `TypeError` (`none`). -/
def mkVideo (vd : JsonObj) : Option YoutubeVideoR :=
  let raw := vd.get "upload_date"
  let vd' := vd.removeKey "upload_date"
  if vd'.hasKey "id"
      && (vd'.okeys.all fun k =>
           k = "id" || k = "title" || k = "description" || k = "duration"
           || k = "channel" || k = "tags" || k = "thumbnail" || k = "view_count"
           || k = "like_count" || k = "transcript_languages") then
    some { id := vd'.getD "id" .null
           title := vd'.getD "title" (.str "")
           description := vd'.getD "description" (.str "")
           duration := vd'.getD "duration" (.num 0)
           channel :=
             match vd'.get "channel" with
             | none => .obj (.ocons "id" (.str "") (.ocons "name" (.str "") .onil))
             | some .null => .obj (.ocons "id" (.str "") (.ocons "name" (.str "") .onil))
             | some c => c
           tags :=
             match vd'.get "tags" with
             | none => .arr .nil
             | some .null => .arr .nil
             | some c => c
           thumbnail := vd'.getD "thumbnail" (.str "")
           uploaded_date := match raw with | some v => v | none => .null
           view_count := vd'.getD "view_count" (.num 0)
           like_count := vd'.getD "like_count" (.num 0)
           transcript_languages :=
             match vd'.get "transcript_languages" with
             | none => .arr .nil
             | some .null => .arr .nil
             | some c => c }
  else none

/-- One per-item result of a batch job: the `BatchResultItem` dataclass.
`transcript` / `video` are populated sub-records or absent; `error_code`
is the raw value copied from the item (Python `None`, i.e. absence, when
the item has no `error_code` entry or a null one). -/
structure BatchResultItemR where
  video_id : Json
  transcript : Option TranscriptR
  video : Option YoutubeVideoR
  error_code : Option Json
deriving DecidableEq

/-- The guard `x and isinstance(x, dict)` on a looked-up sub-value: the
dict, when the value is a truthy (non-empty) dict; `none` otherwise. -/
def subDict : Option Json → Option JsonObj
  | some (.obj (.ocons k v rest)) => some (.ocons k v rest)
  | _ => none

/-- The transcript branch of the item loop: build a `Transcript` from a
truthy transcript dict (propagating its `TypeError`), skip otherwise. -/
def transcriptPart (item : JsonObj) : Except Unit (Option TranscriptR) :=
  match subDict (item.get "transcript") with
  | some td =>
    match mkTranscript td with
    | some t => .ok (some t)
    | none => .error ()
  | none => .ok none

/-- The video branch of the item loop, analogous to the transcript branch. -/
def videoPart (item : JsonObj) : Except Unit (Option YoutubeVideoR) :=
  match subDict (item.get "video") with
  | some vd =>
    match mkVideo vd with
    | some vo => .ok (some vo)
    | none => .error ()
  | none => .ok none

/-- Python `item.get('error_code')`: the raw value, with an explicit null
indistinguishable from an absent key (both give `None`). -/
def errorCodeOf (item : JsonObj) : Option Json :=
  match item.get "error_code" with
  | none => none
  | some .null => none
  | some v => some v

/-- Reconstruction of one dict item inside the `results` loop of
`BatchResults.__post_init__`: the transcript branch runs first, then the
video branch (each only when the sub-value is a truthy dict), then
`video_id` and `error_code` are read off with `item.get`.  `.error ()` is a
propagated `TypeError` from a malformed sub-object. -/
def processItem (item : JsonObj) : Except Unit BatchResultItemR :=
  match transcriptPart item with
  | .error e => .error e
  | .ok transcript_obj =>
    match videoPart item with
    | .error e => .error e
    | .ok video_obj =>
      .ok { video_id := item.getD "video_id" (.str "")
            transcript := transcript_obj
            video := video_obj
            error_code := errorCodeOf item }

/-- The `for item in self.results` loop: dict items are reconstructed in
order, non-dict items are silently skipped. -/
def processItems : JsonList → Except Unit (List BatchResultItemR)
  | .nil => .ok []
  | .cons (.obj o) rest =>
    match processItem o with
    | .error e => .error e
    | .ok item =>
      match processItems rest with
      | .error e => .error e
      | .ok items => .ok (item :: items)
  | .cons _ rest => processItems rest

/-- The `results` processing of `BatchResults.__post_init__`: a list is
reconstructed item by item; any non-list value is replaced by the empty
result list. -/
def processResults (res : Json) : Except Unit (List BatchResultItemR) :=
  match res with
  | .arr l => processItems l
  | _ => .ok []

/-!
Theorems settling the claims.
-/

/-- C5: a limit that is an integer in (0, 5000] passes validation; a limit
that is 0, negative, greater than 5000, or not an integer (for example a
string or a list) raises the invalid-limit SupadataError with code
`invalid-request` and message `Invalid limit provided.`; an omitted (None)
limit passes without error. -/
theorem validate_limit_spec (n m : Int) (s : String) :
    (0 < n ∧ n ≤ 5000 → validateLimit (some (.num n)) = none) ∧
    (m ≤ 0 ∨ 5000 < m → validateLimit (some (.num m)) = some invalidLimitError) ∧
    validateLimit (some (.str s)) = some invalidLimitError ∧
    validateLimit (some (.arr .nil)) = some invalidLimitError ∧
    validateLimit none = none ∧
    invalidLimitError.error = .str "invalid-request" ∧
    invalidLimitError.message = .str "Invalid limit provided." := by
  refine ⟨fun h => ?_, fun h => ?_, rfl, rfl, rfl, rfl, rfl⟩
  · simp only [validateLimit, if_neg (by omega : ¬(n ≤ 0 ∨ 5000 < n))]
  · simp only [validateLimit, if_pos h]

/-- Witness for C5 at limits 3, 0, and the string "x". -/
theorem validate_limit_spec_witness :
    validateLimit (some (.num 3)) = none ∧
    validateLimit (some (.num 0)) = some invalidLimitError ∧
    validateLimit (some (.str "x")) = some invalidLimitError ∧
    validateLimit none = none :=
  ⟨(validate_limit_spec 3 0 "x").1 (by decide),
   (validate_limit_spec 3 0 "x").2.1 (by decide),
   (validate_limit_spec 3 0 "x").2.2.1,
   (validate_limit_spec 3 0 "x").2.2.2.2.1⟩

/-- Every key of the base payload is one of the three source keys. -/
theorem basePayload_keys (vi : Option (List String)) (pl ch : Option String)
    (k : String) (v : Json) (h : (k, v) ∈ basePayload vi pl ch) :
    k = "videoIds" ∨ k = "playlistId" ∨ k = "channelId" := by
  unfold basePayload at h
  simp only [List.append_assoc, List.mem_append] at h
  rcases h with h | h | h
  · rcases vi with _ | ids
    · simp at h
    · by_cases hi : ids = [] <;> simp [hi] at h
      exact Or.inl h.1
  · rcases pl with _ | p
    · simp at h
    · by_cases hp : p = "" <;> simp [hp] at h
      exact Or.inr (Or.inl h.1)
  · rcases ch with _ | c
    · simp at h
    · by_cases hc : c = "" <;> simp [hc] at h
      exact Or.inr (Or.inr h.1)

/-- C3 (amended): for video-batch and transcript-batch creation, a source
counts as supplied only when truthy (a non-empty video-id list, a non-empty
playlist id or channel id).  With exactly one truthy source and a limit that
passes validation, the payload is built and handed to the dispatcher; with
zero or two-or-more truthy sources, a SupadataError with code
`invalid-request` is raised and the dispatcher is never invoked, whatever it
would do. -/
theorem batch_sources_spec (vi : Option (List String)) (pl ch : Option String)
    (limit : Option Json) (lang : Option String) (text : Option Bool)
    (dispatch dispatch' : List (String × Json) → Except SupadataErrorR Json) :
    (sourceCount vi pl ch = 1 → validateLimit limit = none →
      ∃ p, validateBatchSources vi pl ch limit = .ok p ∧
        createVideoBatch dispatch vi pl ch limit = dispatch p) ∧
    (sourceCount vi pl ch ≠ 1 →
      ∃ e, validateBatchSources vi pl ch limit = .error e ∧
        e.error = .str "invalid-request" ∧
        createVideoBatch dispatch vi pl ch limit = .error e ∧
        createTranscriptBatch dispatch' vi pl ch limit lang text = .error e) := by
  constructor
  · intro h1 hlim
    have h0 : ¬ sourceCount vi pl ch = 0 := by omega
    have h2 : ¬ 1 < sourceCount vi pl ch := by omega
    have hv : ∃ p, validateBatchSources vi pl ch limit = .ok p := by
      unfold validateBatchSources
      rw [if_neg h0, if_neg h2]
      rcases limit with _ | l
      · exact ⟨_, rfl⟩
      · simp only [hlim]
        by_cases hpc : (optStrTruthy pl || optStrTruthy ch) = true
        · rw [if_pos hpc]; exact ⟨_, rfl⟩
        · rw [if_neg hpc]; exact ⟨_, rfl⟩
    obtain ⟨p, hp⟩ := hv
    refine ⟨p, hp, ?_⟩
    unfold createVideoBatch
    rw [hp]
  · intro h1
    rcases Nat.lt_or_ge (sourceCount vi pl ch) 1 with h2 | h2
    · have h0 : sourceCount vi pl ch = 0 := by omega
      refine ⟨missingSourceError, ?_, rfl, ?_, ?_⟩
      · unfold validateBatchSources; rw [if_pos h0]
      · unfold createVideoBatch validateBatchSources; rw [if_pos h0]
      · unfold createTranscriptBatch validateBatchSources; rw [if_pos h0]
    · have h2' : 1 < sourceCount vi pl ch := by omega
      have h0 : ¬ sourceCount vi pl ch = 0 := by omega
      refine ⟨multipleSourcesError, ?_, rfl, ?_, ?_⟩
      · unfold validateBatchSources; rw [if_neg h0, if_pos h2']
      · unfold createVideoBatch validateBatchSources; rw [if_neg h0, if_pos h2']
      · unfold createTranscriptBatch validateBatchSources; rw [if_neg h0, if_pos h2']

/-- Witness for C3: one truthy source proceeds to dispatch, two truthy
sources raise an invalid-request error. -/
theorem batch_sources_spec_witness :
    (∃ p, validateBatchSources (some ["a"]) none none none = .ok p ∧
      createVideoBatch (fun _ => .ok (.num 7)) (some ["a"]) none none none
        = .ok (.num 7)) ∧
    (∃ e, validateBatchSources (some ["a"]) (some "p") none none = .error e ∧
      e.error = .str "invalid-request") := by
  constructor
  · obtain ⟨p, hp, hd⟩ := (batch_sources_spec (some ["a"]) none none none none none
        (fun _ => .ok (.num 7)) (fun _ => .ok .null)).1 (by decide) rfl
    exact ⟨p, hp, by rw [hd]⟩
  · obtain ⟨e, he, hcode, _, _⟩ := (batch_sources_spec (some ["a"]) (some "p") none none
        none none (fun _ => .ok .null) (fun _ => .ok .null)).2 (by decide)
    exact ⟨e, he, hcode⟩

/-- Counterexample to C3 as stated: a supplied (non-None) but empty video-id
list is the only supplied source, yet batch creation raises the
missing-source invalid-request error instead of proceeding. -/
theorem batch_sources_counterexample :
    createVideoBatch (fun _ => .ok .null) (some []) none none none
      = .error missingSourceError := rfl

/-- Unfolding equation for `validateBatchSources` with a supplied limit,
once the source count is known to be exactly one. -/
theorem validateBatchSources_limit_eq (vi : Option (List String))
    (pl ch : Option String) (l : Json)
    (h0 : ¬ sourceCount vi pl ch = 0) (h2 : ¬ 1 < sourceCount vi pl ch) :
    validateBatchSources vi pl ch (some l) =
      match validateLimit (some l) with
      | some e => .error e
      | none =>
        if optStrTruthy pl || optStrTruthy ch then
          .ok (basePayload vi pl ch ++ [("limit", l)])
        else .ok (basePayload vi pl ch) := by
  unfold validateBatchSources
  rw [if_neg h0, if_neg h2]

/-- C4: whenever batch-source validation succeeds with a supplied limit, the
outgoing payload contains the limit exactly when the truthy source is the
playlist id or the channel id; when the truthy source is the video-id list,
no limit entry appears in the payload. -/
theorem batch_limit_payload (vi : Option (List String)) (pl ch : Option String)
    (l : Json) (payload : List (String × Json))
    (h : validateBatchSources vi pl ch (some l) = .ok payload) :
    ((optStrTruthy pl || optStrTruthy ch) = true → ("limit", l) ∈ payload) ∧
    ((optStrTruthy pl || optStrTruthy ch) = false → ∀ v, ("limit", v) ∉ payload) := by
  by_cases h0 : sourceCount vi pl ch = 0
  · unfold validateBatchSources at h
    rw [if_pos h0] at h
    simp at h
  by_cases h2 : 1 < sourceCount vi pl ch
  · unfold validateBatchSources at h
    rw [if_neg h0, if_pos h2] at h
    simp at h
  rw [validateBatchSources_limit_eq vi pl ch l h0 h2] at h
  rcases hv : validateLimit (some l) with _ | e <;> rw [hv] at h
  · by_cases hpc : (optStrTruthy pl || optStrTruthy ch) = true
    · rw [if_pos hpc] at h
      injection h with h'
      subst h'
      refine ⟨fun _ => by simp, fun h2 => ?_⟩
      rw [h2] at hpc
      simp at hpc
    · rw [if_neg hpc] at h
      injection h with h'
      subst h'
      refine ⟨fun h2 => absurd h2 hpc, fun _ v hv2 => ?_⟩
      rcases basePayload_keys vi pl ch "limit" v hv2 with h3 | h3 | h3 <;> simp at h3
  · simp at h

/-- Witness for C4: a playlist source carries the limit, a video-id source
drops it. -/
theorem batch_limit_payload_witness :
    ("limit", Json.num 5) ∈ [("playlistId", Json.str "p"), ("limit", Json.num 5)] ∧
    ("limit", Json.num 5) ∉ [("videoIds", Json.arr (strListToJson ["a"]))] :=
  ⟨(batch_limit_payload none (some "p") none (.num 5)
      [("playlistId", Json.str "p"), ("limit", Json.num 5)] rfl).1 (by decide),
   (batch_limit_payload (some ["a"]) none none (.num 5)
      [("videoIds", Json.arr (strListToJson ["a"]))] rfl).2 (by decide) (Json.num 5)⟩

/-- C9: evaluation of the playlist-videos query construction at its failing
inputs.  The claim says the GET request to `/youtube/playlist/videos`
carries exactly `id` (plus `limit` when supplied); the code instead always
appends a stray `type` parameter whose value is the Python builtin class
`type`, because the leftover `if type:` guard tests the always-truthy
builtin. -/
theorem playlist_videos_stray_type_param :
    playlistVideosParams "PL123" none
      = .ok [("id", .val (.str "PL123")), ("type", .pyBuiltinType)] ∧
    playlistVideosParams "PL123" (some (.num 5))
      = .ok [("id", .val (.str "PL123")), ("limit", .val (.num 5)),
             ("type", .pyBuiltinType)] :=
  ⟨rfl, rfl⟩

/-- Absent keys have no value. -/
theorem JsonObj.get_eq_none_of_hasKey_false :
    ∀ (o : JsonObj) (k : String), o.hasKey k = false → o.get k = none
  | .onil, _, _ => rfl
  | .ocons k' v rest, k, h => by
    unfold JsonObj.hasKey at h
    unfold JsonObj.get
    by_cases hk : k' = k
    · rw [hk] at h
      simp at h
    · rw [if_neg hk]
      simp only [decide_eq_false hk, Bool.false_or] at h
      exact JsonObj.get_eq_none_of_hasKey_false rest k h

/-- The normalized 206 dispatch never yields a success value. -/
theorem partialContentOf_ne_ok : ∀ (e v : Json), partialContentOf e ≠ .ok v
  | .null, v => by simp [partialContentOf]
  | .bool b, v => by simp [partialContentOf]
  | .num n, v => by simp [partialContentOf]
  | .str s, v => by
    simp only [partialContentOf]
    split <;> simp
  | .arr l, v => by
    simp only [partialContentOf]
    split <;> simp
  | .obj o, v => by
    simp only [partialContentOf]
    split
    · split <;> simp
    · simp

/-- The 206 branch never yields a success value, whatever the body. -/
theorem partialContentOutcome_ne_ok (body : Option Json) (v : Json) :
    partialContentOutcome body ≠ .ok v := by
  rcases body with _ | b
  · simp [partialContentOutcome]
  · exact partialContentOf_ne_ok (camelToSnake b) v

/-- On a 206 status the dispatcher runs exactly the partial-content branch. -/
theorem request_206_eq (path : String) (r : HttpResponse)
    (hs : r.status = 206) (hp : isTranscriptPath path = true) :
    request path r = partialContentOutcome r.body := by
  unfold request
  rw [if_neg (by omega : ¬(r.status = 403 ∨ r.status = 404 ∨ r.status = 429)),
    if_pos ⟨hs, hp⟩]

/-- C7 (amended): a 206 response on a transcript path never produces a
success value; when the parsed body is an object whose normalization has no
`error` member, the synthetic transcript-unavailable error is raised (when
it has one, the SupadataError built from that member is raised instead, and
a malformed body propagates a decode or type error — but never success). -/
theorem transcript_206_no_success (path : String) (r : HttpResponse) (b : Json)
    (o : JsonObj) (hp : isTranscriptPath path = true) (hs : r.status = 206) :
    (∀ v, request path r ≠ .ok v) ∧
    (r.body = some b → camelToSnake b = .obj o → o.hasKey "error" = false →
      request path r = .supadata transcriptUnavailableError) := by
  refine ⟨fun v => ?_, fun hb hcb hk => ?_⟩
  · rw [request_206_eq path r hs hp]
    exact partialContentOutcome_ne_ok r.body v
  · rw [request_206_eq path r hs hp, hb]
    have hsome : partialContentOutcome (some b) = partialContentOf (camelToSnake b) := rfl
    rw [hsome, hcb]
    have hobj : partialContentOf (.obj o) =
        (match o.get "error" with
         | some ev =>
           match mkSupadataError ev with
           | some err => .supadata err
           | none => .typeError
         | none => .supadata transcriptUnavailableError) := rfl
    rw [hobj, JsonObj.get_eq_none_of_hasKey_false o "error" hk]

/-- Witness for C7 at a transcript path with a plain 206 body. -/
theorem transcript_206_no_success_witness :
    request "/youtube/transcript" ⟨206, some (.obj (.ocons "content" .null .onil))⟩
        ≠ .ok .null ∧
    request "/youtube/transcript" ⟨206, some (.obj (.ocons "content" .null .onil))⟩
        = .supadata transcriptUnavailableError :=
  ⟨(transcript_206_no_success "/youtube/transcript"
      ⟨206, some (.obj (.ocons "content" .null .onil))⟩
      (.obj (.ocons "content" .null .onil)) (.ocons "content" .null .onil)
      (by decide) rfl).1 .null,
   (transcript_206_no_success "/youtube/transcript"
      ⟨206, some (.obj (.ocons "content" .null .onil))⟩
      (.obj (.ocons "content" .null .onil)) (.ocons "content" .null .onil)
      (by decide) rfl).2 rfl (by decide) (by decide)⟩

/-- Counterexample to C7 as stated: a 206 transcript response whose body
carries a structured `error` member raises that error, not the synthetic
transcript-unavailable one. -/
theorem transcript_206_counterexample :
    request "/youtube/transcript"
        ⟨206, some (.obj (.ocons "error"
          (.obj (.ocons "error" (.str "video-not-found")
            (.ocons "message" (.str "Video not found")
              (.ocons "details" (.str "The requested video does not exist") .onil))))
          .onil))⟩
      = .supadata { error := .str "video-not-found"
                    message := .str "Video not found"
                    details := .str "The requested video does not exist" } ∧
    ({ error := .str "video-not-found"
       message := .str "Video not found"
       details := .str "The requested video does not exist" } : SupadataErrorR)
      ≠ transcriptUnavailableError := by
  refine ⟨by rfl, by decide⟩

/-- C8 (amended): for statuses in 400-599 other than the gateway codes, the
dispatcher parses the error body: a body that normalizes to a well-formed
error mapping raises the uniform SupadataError built from its fields; a body
that is not JSON propagates the transport `HTTPError` unchanged; a body that
parses but is not a well-formed error mapping raises a `TypeError` instead
of the transport error.  Statuses outside 400-599 — including non-2xx codes
such as 3xx redirects — do not error at all: the normalized body is
returned as success. -/
theorem error_status_dispatch (path : String) (r : HttpResponse) (b : Json)
    (e : SupadataErrorR)
    (hn : ¬(r.status = 403 ∨ r.status = 404 ∨ r.status = 429))
    (hnt : ¬(r.status = 206 ∧ isTranscriptPath path = true)) :
    (400 ≤ r.status → r.status < 600 → r.body = none →
      request path r = .httpError r.status) ∧
    (400 ≤ r.status → r.status < 600 → r.body = some b →
      mkSupadataError (camelToSnake b) = some e → request path r = .supadata e) ∧
    (400 ≤ r.status → r.status < 600 → r.body = some b →
      mkSupadataError (camelToSnake b) = none → request path r = .typeError) ∧
    ((r.status < 400 ∨ 600 ≤ r.status) → r.body = some b →
      request path r = .ok (camelToSnake b)) := by
  have herr : 400 ≤ r.status → r.status < 600 →
      request path r = errorStatusOutcome r.status r.body := by
    intro h4 h6
    unfold request
    rw [if_neg hn, if_neg hnt,
      if_neg (by omega : ¬(r.status < 400 ∨ 600 ≤ r.status))]
  have h2 : errorStatusOutcome r.status (some b) =
      (match mkSupadataError (camelToSnake b) with
       | some e' => ReqOutcome.supadata e'
       | none => ReqOutcome.typeError) := rfl
  refine ⟨fun h4 h6 hb => ?_, fun h4 h6 hb hmk => ?_, fun h4 h6 hb hmk => ?_,
    fun hs hb => ?_⟩
  · rw [herr h4 h6, hb]
    rfl
  · rw [herr h4 h6, hb, h2, hmk]
  · rw [herr h4 h6, hb, h2, hmk]
  · unfold request
    rw [if_neg hn, if_neg hnt, if_pos hs, hb]
    rfl

/-- Witness for C8: a structured 500 body raises the uniform error, an
unparseable 500 body re-raises the transport error, and a 301 body is
returned as success. -/
theorem error_status_dispatch_witness :
    request "/web/scrape" ⟨500, none⟩ = .httpError 500 ∧
    request "/web/scrape"
        ⟨500, some (.obj (.ocons "error" (.str "internal-error")
          (.ocons "message" (.str "boom") (.ocons "details" (.str "d") .onil))))⟩
      = .supadata { error := .str "internal-error", message := .str "boom"
                    details := .str "d" } ∧
    request "/web/scrape" ⟨301, some (.obj (.ocons "ok" (.bool true) .onil))⟩
      = .ok (.obj (.ocons "ok" (.bool true) .onil)) := by
  refine ⟨?_, ?_, ?_⟩
  · exact (error_status_dispatch "/web/scrape" ⟨500, none⟩ .null
      { error := .null, message := .null, details := .null }
      (by decide) (by decide)).1 (by decide) (by decide) rfl
  · exact (error_status_dispatch "/web/scrape"
      ⟨500, some (.obj (.ocons "error" (.str "internal-error")
        (.ocons "message" (.str "boom") (.ocons "details" (.str "d") .onil))))⟩
      (.obj (.ocons "error" (.str "internal-error")
        (.ocons "message" (.str "boom") (.ocons "details" (.str "d") .onil))))
      { error := .str "internal-error", message := .str "boom", details := .str "d" }
      (by decide) (by decide)).2.1 (by decide) (by decide) rfl (by rfl)
  · exact (error_status_dispatch "/web/scrape"
      ⟨301, some (.obj (.ocons "ok" (.bool true) .onil))⟩
      (.obj (.ocons "ok" (.bool true) .onil))
      { error := .null, message := .null, details := .null }
      (by decide) (by decide)).2.2.2 (by decide) rfl

/-- Counterexample to C8 as stated: a 500 response whose body parses to the
JSON object `{"foo": 1}` raises a `TypeError` — neither the uniform
SupadataError nor the underlying transport error. -/
theorem error_status_dispatch_counterexample :
    request "/web/scrape" ⟨500, some (.obj (.ocons "foo" (.num 1) .onil))⟩
        = .typeError ∧
    ReqOutcome.typeError ≠ .httpError 500 := by
  exact ⟨rfl, by decide⟩

/-- A missing transcript key skips the transcript branch. -/
theorem transcriptPart_of_no_key (item : JsonObj)
    (h : item.hasKey "transcript" = false) : transcriptPart item = .ok none := by
  simp only [transcriptPart, JsonObj.get_eq_none_of_hasKey_false item "transcript" h,
    subDict]

/-- A missing video key skips the video branch. -/
theorem videoPart_of_no_key (item : JsonObj)
    (h : item.hasKey "video" = false) : videoPart item = .ok none := by
  simp only [videoPart, JsonObj.get_eq_none_of_hasKey_false item "video" h, subDict]

/-- A missing error-code key reads as absent. -/
theorem errorCodeOf_of_no_key (item : JsonObj)
    (h : item.hasKey "error_code" = false) : errorCodeOf item = none := by
  simp only [errorCodeOf, JsonObj.get_eq_none_of_hasKey_false item "error_code" h]

/-- C1 (amended): each dict item of a batch-results payload is reconstructed
independently: the transcript field is populated exactly when the item's
transcript member is a truthy dict, the video field exactly when its video
member is a truthy dict, and the item's error-code field is copied verbatim
whenever present.  In particular an item whose only sub-object is a video
dict (no transcript, no error code) becomes a video-variant with transcript
and error code absent; one whose only sub-object is a transcript dict
becomes a transcript-variant; one with neither sub-object carries just the
error code; and the order of dict items is preserved. -/
theorem batch_item_reconstruction (item td vd : JsonObj) (T : TranscriptR)
    (V : YoutubeVideoR) (o : JsonObj) (rest : JsonList) (r : BatchResultItemR)
    (rs : List BatchResultItemR) :
    (item.hasKey "transcript" = false → item.hasKey "error_code" = false →
      subDict (item.get "video") = some vd → mkVideo vd = some V →
      processItem item = .ok { video_id := item.getD "video_id" (.str "")
                               transcript := none
                               video := some V
                               error_code := none }) ∧
    (item.hasKey "video" = false → item.hasKey "error_code" = false →
      subDict (item.get "transcript") = some td → mkTranscript td = some T →
      processItem item = .ok { video_id := item.getD "video_id" (.str "")
                               transcript := some T
                               video := none
                               error_code := none }) ∧
    (item.hasKey "transcript" = false → item.hasKey "video" = false →
      processItem item = .ok { video_id := item.getD "video_id" (.str "")
                               transcript := none
                               video := none
                               error_code := errorCodeOf item }) ∧
    (processItem o = .ok r → processItems rest = .ok rs →
      processItems (.cons (.obj o) rest) = .ok (r :: rs)) := by
  refine ⟨fun hT hE hV hmk => ?_, fun hVn hE hT hmk => ?_, fun hT hV => ?_,
    fun ho hrest => ?_⟩
  · simp only [processItem, transcriptPart_of_no_key item hT, videoPart, hV, hmk,
      errorCodeOf_of_no_key item hE]
  · simp only [processItem, videoPart_of_no_key item hVn, transcriptPart, hT, hmk,
      errorCodeOf_of_no_key item hE]
  · simp only [processItem, transcriptPart_of_no_key item hT,
      videoPart_of_no_key item hV]
  · simp only [processItems, ho, hrest]

/-- Witness for C1 on concrete video-only, transcript-only, error-only and
two-item inputs. -/
theorem batch_item_reconstruction_witness :
    processItem (.ocons "video_id" (.str "v1")
        (.ocons "video" (.obj (.ocons "id" (.str "x") .onil)) .onil))
      = .ok { video_id := .str "v1"
              transcript := none
              video := some { id := .str "x", title := .str "", description := .str ""
                              duration := .num 0
                              channel := .obj (.ocons "id" (.str "")
                                (.ocons "name" (.str "") .onil))
                              tags := .arr .nil, thumbnail := .str ""
                              uploaded_date := .null, view_count := .num 0
                              like_count := .num 0, transcript_languages := .arr .nil }
              error_code := none } ∧
    processItem (.ocons "transcript" (.obj (.ocons "lang" (.str "en") .onil)) .onil)
      = .ok { video_id := .str ""
              transcript := some { content := .arr .nil, lang := .str "en"
                                   available_langs := .arr .nil }
              video := none
              error_code := none } ∧
    processItem (.ocons "video_id" (.str "v3")
        (.ocons "error_code" (.str "failed") .onil))
      = .ok { video_id := .str "v3"
              transcript := none
              video := none
              error_code := some (.str "failed") } ∧
    processItems (.cons (.obj (.ocons "error_code" (.str "e") .onil)) .nil)
      = .ok [{ video_id := .str ""
               transcript := none
               video := none
               error_code := some (.str "e") }] := by
  refine ⟨?_, ?_, ?_, ?_⟩
  · exact (batch_item_reconstruction
      (.ocons "video_id" (.str "v1")
        (.ocons "video" (.obj (.ocons "id" (.str "x") .onil)) .onil))
      .onil (.ocons "id" (.str "x") .onil)
      { content := .null, lang := .null, available_langs := .null }
      { id := .str "x", title := .str "", description := .str "", duration := .num 0
        channel := .obj (.ocons "id" (.str "") (.ocons "name" (.str "") .onil))
        tags := .arr .nil, thumbnail := .str "", uploaded_date := .null
        view_count := .num 0, like_count := .num 0, transcript_languages := .arr .nil }
      .onil .nil
      { video_id := .null, transcript := none, video := none, error_code := none }
      []).1 (by decide) (by decide) rfl (by decide)
  · exact (batch_item_reconstruction
      (.ocons "transcript" (.obj (.ocons "lang" (.str "en") .onil)) .onil)
      (.ocons "lang" (.str "en") .onil) .onil
      { content := .arr .nil, lang := .str "en", available_langs := .arr .nil }
      { id := .null, title := .null, description := .null, duration := .null
        channel := .null, tags := .null, thumbnail := .null, uploaded_date := .null
        view_count := .null, like_count := .null, transcript_languages := .null }
      .onil .nil
      { video_id := .null, transcript := none, video := none, error_code := none }
      []).2.1 (by decide) (by decide) rfl (by decide)
  · exact (batch_item_reconstruction
      (.ocons "video_id" (.str "v3") (.ocons "error_code" (.str "failed") .onil))
      .onil .onil
      { content := .null, lang := .null, available_langs := .null }
      { id := .null, title := .null, description := .null, duration := .null
        channel := .null, tags := .null, thumbnail := .null, uploaded_date := .null
        view_count := .null, like_count := .null, transcript_languages := .null }
      .onil .nil
      { video_id := .null, transcript := none, video := none, error_code := none }
      []).2.2.1 (by decide) (by decide)
  · exact (batch_item_reconstruction .onil .onil .onil
      { content := .null, lang := .null, available_langs := .null }
      { id := .null, title := .null, description := .null, duration := .null
        channel := .null, tags := .null, thumbnail := .null, uploaded_date := .null
        view_count := .null, like_count := .null, transcript_languages := .null }
      (.ocons "error_code" (.str "e") .onil) .nil
      { video_id := .str "", transcript := none, video := none
        error_code := some (.str "e") }
      []).2.2.2 rfl rfl

/-- Counterexample to C1 as stated: an item containing a `video` sub-object
together with an `error_code` field reconstructs with the error code
populated, not absent. -/
theorem batch_item_counterexample :
    processItem (.ocons "video_id" (.str "v1")
        (.ocons "video" (.obj (.ocons "id" (.str "x") .onil))
          (.ocons "error_code" (.str "oops") .onil)))
      = .ok { video_id := .str "v1"
              transcript := none
              video := some { id := .str "x", title := .str "", description := .str ""
                              duration := .num 0
                              channel := .obj (.ocons "id" (.str "")
                                (.ocons "name" (.str "") .onil))
                              tags := .arr .nil, thumbnail := .str ""
                              uploaded_date := .null, view_count := .num 0
                              like_count := .num 0, transcript_languages := .arr .nil }
              error_code := some (.str "oops") } ∧
    some (Json.str "oops") ≠ (none : Option Json) :=
  ⟨rfl, by decide⟩

/-- Embedded list to Lean list. -/
def jsonListToList : JsonList → List Json
  | .nil => []
  | .cons x rest => x :: jsonListToList rest

/-- Every element of an embedded list is a dict. -/
def jsonListAllObj : JsonList → Bool
  | .nil => true
  | .cons (.obj _) rest => jsonListAllObj rest
  | .cons _ _ => false

/-- A well-shaped `pages` value for the crawl loop: absent (null) or a list
of page dicts. -/
def pagesOkB : Json → Bool
  | .null => true
  | .arr l => jsonListAllObj l
  | _ => false

/-- The page records a single well-formed crawl response contributes. -/
def pagesListOf (pages : Json) : List CrawlPageR :=
  match pages with
  | .arr l => (jsonListToList l).filterMap toCrawlPage
  | _ => []

/-- The page records of one scripted response (empty for ill-formed ones;
the well-formedness predicates below rule those out). -/
def respPages (j : Json) : List CrawlPageR :=
  match mkCrawlResponse j with
  | some cr => pagesListOf cr.pages
  | none => []

/-- A well-formed, non-failed crawl response; `hasNext` prescribes whether
its pagination token is truthy. -/
def wfCrawlResp (j : Json) (hasNext : Bool) : Bool :=
  match mkCrawlResponse j with
  | none => false
  | some cr =>
    !(decide (cr.status = Json.str "failed")) && pagesOkB cr.pages
      && (truthy cr.next == hasNext)

/-- A chain of crawl responses linked by truthy `next` tokens and ending in
a token-less final response. -/
def wfChain : List Json → Bool
  | [] => false
  | [r] => wfCrawlResp r false
  | r :: r2 :: rest => wfCrawlResp r true && wfChain (r2 :: rest)

/-- A response reporting a failed crawl job. -/
def isFailedResp (j : Json) : Bool :=
  match mkCrawlResponse j with
  | some cr => decide (cr.status = Json.str "failed")
  | none => false

/-- Collecting well-shaped pages succeeds and keeps them in order. -/
theorem collectPages_all_obj : ∀ l : JsonList, jsonListAllObj l = true →
    collectPages l = .ok ((jsonListToList l).filterMap toCrawlPage)
  | .nil, _ => rfl
  | .cons x rest, h => by
    cases x <;> simp only [jsonListAllObj] at h
    case obj o =>
      simp only [collectPages, toCrawlPage, jsonListToList, List.filterMap_cons,
        collectPages_all_obj rest h]
    all_goals exact absurd h (by decide)

/-- A well-shaped `pages` value contributes exactly its page records. -/
theorem pagesOf_ok (pages : Json) (h : pagesOkB pages = true) :
    pagesOf pages = .ok (pagesListOf pages) := by
  cases pages <;> simp only [pagesOkB] at h
  case null => rfl
  case arr l =>
    cases l with
    | nil => rfl
    | cons x rest =>
      have h1 : pagesOf (.arr (.cons x rest)) = collectPages (.cons x rest) := rfl
      rw [h1, collectPages_all_obj (.cons x rest) h]
      rfl
  all_goals exact absurd h (by decide)

/-- One step of the crawl loop on a well-formed, non-failed response. -/
theorem crawlLoop_cons_eq (r : Json) (rest : List Json) (acc : List CrawlPageR)
    (cr : CrawlRespR) (hm : mkCrawlResponse r = some cr)
    (hst : ¬ cr.status = Json.str "failed") (hpg : pagesOkB cr.pages = true) :
    crawlLoop (r :: rest) acc =
      if truthy cr.next = true then crawlLoop rest (acc ++ pagesListOf cr.pages)
      else .ok (acc ++ pagesListOf cr.pages) := by
  simp only [crawlLoop, hm, if_neg hst, pagesOf_ok cr.pages hpg]

/-- Splitting a well-formed single response into its components. -/
theorem wfCrawlResp_elim (r : Json) (b : Bool) (h : wfCrawlResp r b = true) :
    ∃ cr, mkCrawlResponse r = some cr ∧ ¬ cr.status = Json.str "failed" ∧
      pagesOkB cr.pages = true ∧ truthy cr.next = b := by
  unfold wfCrawlResp at h
  rcases hm : mkCrawlResponse r with _ | cr <;> rw [hm] at h
  · simp at h
  · simp only [Bool.and_assoc, Bool.and_eq_true, Bool.not_eq_true',
      decide_eq_false_iff_not, beq_iff_eq] at h
    exact ⟨cr, rfl, h.1, h.2.1, h.2.2⟩

/-- The crawl loop over a well-formed chain returns the accumulated pages
followed by every response's pages, in order. -/
theorem crawlLoop_wf : ∀ (rs : List Json) (acc : List CrawlPageR),
    wfChain rs = true →
    crawlLoop rs acc = .ok (acc ++ (rs.map respPages).flatten)
  | [], _, h => by simp [wfChain] at h
  | [r], acc, h => by
    obtain ⟨cr, hm, hst, hpg, hnx⟩ := wfCrawlResp_elim r false h
    rw [crawlLoop_cons_eq r [] acc cr hm hst hpg, hnx]
    simp [respPages, hm]
  | r :: r2 :: rest, acc, h => by
    simp only [wfChain, Bool.and_eq_true] at h
    obtain ⟨h1, h2⟩ := h
    obtain ⟨cr, hm, hst, hpg, hnx⟩ := wfCrawlResp_elim r true h1
    rw [crawlLoop_cons_eq r (r2 :: rest) acc cr hm hst hpg, hnx, if_pos rfl,
      crawlLoop_wf (r2 :: rest) (acc ++ pagesListOf cr.pages) h2]
    simp [respPages, hm, List.append_assoc]

/-- A failed response reached through well-formed chained responses aborts
the loop at once, whatever the accumulator and whatever would come after. -/
theorem crawlLoop_failed : ∀ (pre : List Json) (junk : List Json)
    (acc : List CrawlPageR) (fr : Json),
    (∀ r ∈ pre, wfCrawlResp r true = true) → isFailedResp fr = true →
    crawlLoop (pre ++ fr :: junk) acc = .failedErr
  | [], junk, acc, fr, _, hf => by
    simp only [isFailedResp] at hf
    rcases hm : mkCrawlResponse fr with _ | cr <;> rw [hm] at hf
    · exact absurd hf (by decide)
    · simp only [decide_eq_true_eq] at hf
      simp only [List.nil_append, crawlLoop, hm, if_pos hf]
  | r :: pre, junk, acc, fr, hpre, hf => by
    obtain ⟨cr, hm, hst, hpg, hnx⟩ := wfCrawlResp_elim r true (hpre r (by simp))
    rw [List.cons_append, crawlLoop_cons_eq r (pre ++ fr :: junk) acc cr hm hst hpg,
      hnx, if_pos rfl]
    exact crawlLoop_failed pre junk (acc ++ pagesListOf cr.pages) fr
      (fun r' hr' => hpre r' (by simp [hr'])) hf

/-- C6: over a sequence of crawl-status responses chained by truthy `next`
tokens and ending in a token-less final response, `get_crawl_results`
returns the concatenation, in order, of every response's page list; and if
the responses reach one whose status is `failed`, it raises the crawl-failed
error immediately, returning no partial accumulation, whatever responses
would follow. -/
theorem crawl_results_pagination (resps pre junk : List Json) (fr : Json) :
    (wfChain resps = true →
      getCrawlResults resps = .ok ((resps.map respPages).flatten)) ∧
    ((∀ r ∈ pre, wfCrawlResp r true = true) → isFailedResp fr = true →
      getCrawlResults (pre ++ fr :: junk) = .failedErr) :=
  ⟨fun h => crawlLoop_wf resps [] h,
   fun hpre hf => crawlLoop_failed pre junk [] fr hpre hf⟩

/-- Witness for C6: a two-page chain concatenates in order; a failed second
response aborts even with responses queued after it. -/
theorem crawl_results_pagination_witness :
    getCrawlResults
        [.obj (.ocons "status" (.str "scraping")
          (.ocons "pages" (.arr (.cons (.obj (.ocons "url" (.str "u1") .onil)) .nil))
            (.ocons "next" (.str "tok") .onil))),
         .obj (.ocons "status" (.str "completed")
          (.ocons "pages" (.arr (.cons (.obj (.ocons "url" (.str "u2") .onil)) .nil))
            .onil))]
      = .ok [{ url := .str "u1", content := .str "", name := .str ""
               description := .str "", og_url := .null, count_characters := .num 0 },
             { url := .str "u2", content := .str "", name := .str ""
               description := .str "", og_url := .null, count_characters := .num 0 }] ∧
    getCrawlResults
        [.obj (.ocons "status" (.str "scraping")
          (.ocons "pages" (.arr (.cons (.obj (.ocons "url" (.str "u1") .onil)) .nil))
            (.ocons "next" (.str "tok") .onil))),
         .obj (.ocons "status" (.str "failed") .onil),
         .obj (.ocons "status" (.str "completed") .onil)]
      = .failedErr := by
  constructor
  · exact ((crawl_results_pagination
      [.obj (.ocons "status" (.str "scraping")
        (.ocons "pages" (.arr (.cons (.obj (.ocons "url" (.str "u1") .onil)) .nil))
          (.ocons "next" (.str "tok") .onil))),
       .obj (.ocons "status" (.str "completed")
        (.ocons "pages" (.arr (.cons (.obj (.ocons "url" (.str "u2") .onil)) .nil))
          .onil))]
      [] [] .null).1 (by decide)).trans (by decide)
  · exact (crawl_results_pagination []
      [.obj (.ocons "status" (.str "scraping")
        (.ocons "pages" (.arr (.cons (.obj (.ocons "url" (.str "u1") .onil)) .nil))
          (.ocons "next" (.str "tok") .onil)))]
      [.obj (.ocons "status" (.str "completed") .onil)]
      (.obj (.ocons "status" (.str "failed") .onil))).2
      (by decide) (by decide)

/-!
Key-shape predicates for the normalization claims.  `strictCamelS` is strict
lower camelCase: a lowercase first letter, ASCII alphanumeric characters,
and no two adjacent uppercase letters (the discipline under which the
two-regex conversion is exactly "underscore before every uppercase letter,
then lowercase", and injective).  `looseCamelS` drops the adjacency
restriction and admits keys such as `videoID`.
-/

/-- An ASCII alphanumeric character. -/
def isAlnumCh (c : Char) : Bool := c.isUpper || c.isLower || c.isDigit

/-- All characters ASCII alphanumeric. -/
def alnumAll (l : List Char) : Bool := l.all isAlnumCh

/-- No two adjacent uppercase letters. -/
def noUU : List Char → Bool
  | a :: b :: tl => (!(a.isUpper && b.isUpper)) && noUU (b :: tl)
  | _ => true

/-- A word made of ASCII alphanumerics with no two adjacent uppercase
letters. -/
def goodTail (l : List Char) : Bool := alnumAll l && noUU l

/-- The first character, if any, is not uppercase. -/
def headNotUpper : List Char → Bool
  | [] => true
  | c :: _ => !c.isUpper

/-- Strict lower camelCase on character lists. -/
def strictCamelL (l : List Char) : Bool :=
  match l with
  | [] => false
  | c :: _ => c.isLower && goodTail l

/-- Strict lower camelCase on strings. -/
def strictCamelS (s : String) : Bool := strictCamelL s.data

/-- Loose lower camelCase: lowercase first letter, alphanumerics (adjacent
uppercase permitted). -/
def looseCamelS (s : String) : Bool :=
  match s.data with
  | [] => false
  | c :: rest => c.isLower && alnumAll (c :: rest)

/-- Insert an underscore before every uppercase letter. -/
def uscoreL : List Char → List Char
  | [] => []
  | c :: tl => if c.isUpper then '_' :: c :: uscoreL tl else c :: uscoreL tl

/-- The canonical snake form of a camelCase word: underscore before every
uppercase letter, then lowercase everything. -/
def snakeExpand (l : List Char) : List Char := (uscoreL l).map Char.toLower

/-- A snake_case character: lowercase, digit, or underscore. -/
def isSnakeCh (c : Char) : Bool := c.isLower || c.isDigit || c = '_'

/-- A snake_case word: non-empty, lowercase first letter, snake characters
throughout. -/
def isSnakeL (l : List Char) : Bool :=
  match l with
  | [] => false
  | c :: _ => c.isLower && l.all isSnakeCh

/-- A snake_case string. -/
def isSnakeS (s : String) : Bool := isSnakeL s.data

/-!
ASCII character facts about the Lean core predicates used by the embedding.
-/

/-- Unsigned comparison is comparison of the underlying naturals. -/
theorem uint32_le_iff (a b : UInt32) : a ≤ b ↔ a.toNat ≤ b.toNat := by
  rw [UInt32.le_def, BitVec.le_def]
  rfl

/-- Valid code points round-trip through `Char.ofNat`. -/
theorem char_toNat_ofNat {m : Nat} (h : m.isValidChar) : (Char.ofNat m).toNat = m := by
  rw [Char.ofNat, dif_pos h]
  rfl

/-- Uppercase means code point in 65-90. -/
theorem isUpper_iff (c : Char) : c.isUpper = true ↔ 65 ≤ c.toNat ∧ c.toNat ≤ 90 := by
  simp only [Char.isUpper, Bool.and_eq_true, decide_eq_true_eq, ge_iff_le]
  rw [uint32_le_iff, uint32_le_iff]
  exact Iff.rfl

/-- Lowercase means code point in 97-122. -/
theorem isLower_iff (c : Char) : c.isLower = true ↔ 97 ≤ c.toNat ∧ c.toNat ≤ 122 := by
  simp only [Char.isLower, Bool.and_eq_true, decide_eq_true_eq, ge_iff_le]
  rw [uint32_le_iff, uint32_le_iff]
  exact Iff.rfl

/-- Digit means code point in 48-57. -/
theorem isDigit_iff (c : Char) : c.isDigit = true ↔ 48 ≤ c.toNat ∧ c.toNat ≤ 57 := by
  simp only [Char.isDigit, Bool.and_eq_true, decide_eq_true_eq, ge_iff_le]
  rw [uint32_le_iff, uint32_le_iff]
  exact Iff.rfl

/-- Lowercasing fixes everything except ASCII uppercase. -/
theorem toLower_of_not_upper (c : Char) (h : c.isUpper = false) : c.toLower = c := by
  simp only [Char.toLower]
  rw [if_neg]
  intro hc
  have h2 := (isUpper_iff c).mpr hc
  rw [h] at h2
  exact Bool.false_ne_true h2

/-- Lowercasing an ASCII uppercase letter adds 32 to the code point. -/
theorem toNat_toLower_of_upper (c : Char) (h : c.isUpper = true) :
    c.toLower.toNat = c.toNat + 32 := by
  obtain ⟨h1, h2⟩ := (isUpper_iff c).mp h
  simp only [Char.toLower]
  rw [if_pos ⟨h1, h2⟩]
  exact char_toNat_ofNat (Or.inl (by omega))

/-- Lowercased characters are never uppercase. -/
theorem isUpper_toLower (c : Char) : c.toLower.isUpper = false := by
  rcases hc : c.isUpper with _ | _
  · rw [toLower_of_not_upper c hc]
    exact hc
  · rcases hh : c.toLower.isUpper with _ | _
    · rfl
    · obtain ⟨h3, h4⟩ := (isUpper_iff _).mp hh
      rw [toNat_toLower_of_upper c hc] at h3 h4
      obtain ⟨h1, h2⟩ := (isUpper_iff c).mp hc
      omega

/-- Characters with equal code points are equal. -/
theorem char_toNat_inj (c d : Char) (h : c.toNat = d.toNat) : c = d := by
  apply Char.ext
  apply UInt32.ext
  exact h

/-- An alphanumeric that is not uppercase is lowercase or a digit. -/
theorem alnum_not_upper (c : Char) (ha : isAlnumCh c = true)
    (hu : c.isUpper = false) : (c.isLower || c.isDigit) = true := by
  simp only [isAlnumCh, hu, Bool.false_or] at ha
  exact ha

/-- A lowercase letter is not uppercase. -/
theorem lower_not_upper (c : Char) (h : c.isLower = true) : c.isUpper = false := by
  rcases hu : c.isUpper with _ | _
  · rfl
  · obtain ⟨h1, h2⟩ := (isUpper_iff c).mp hu
    obtain ⟨h3, h4⟩ := (isLower_iff c).mp h
    omega

/-- An alphanumeric character is not a newline. -/
theorem alnum_ne_newline (c : Char) (h : isAlnumCh c = true) : c ≠ '\n' := by
  intro hc
  subst hc
  simp [isAlnumCh, Char.isUpper, Char.isLower, Char.isDigit] at h

/-- An uppercase letter is neither lowercase nor a digit. -/
theorem upper_not_lowdig (c : Char) (h : c.isUpper = true) :
    (c.isLower || c.isDigit) = true → False := by
  intro hld
  obtain ⟨h1, h2⟩ := (isUpper_iff c).mp h
  rcases Bool.or_eq_true_iff.mp hld with hl | hd
  · obtain ⟨h3, h4⟩ := (isLower_iff c).mp hl
    omega
  · obtain ⟨h3, h4⟩ := (isDigit_iff c).mp hd
    omega

/-- Bool form of the previous fact. -/
theorem upper_not_lowdig_eq (c : Char) (h : c.isUpper = true) :
    (c.isLower || c.isDigit) = false := by
  rcases hb : (c.isLower || c.isDigit) with _ | _
  · rfl
  · exact absurd hb (fun hb' => upper_not_lowdig c h hb')

/-- Unfolding `sub2` on a matching pair. -/
theorem sub2_match (a b : Char) (tl : List Char)
    (h : ((a.isLower || a.isDigit) && b.isUpper) = true) :
    sub2 (a :: b :: tl) = a :: '_' :: b :: sub2 tl := by
  simp only [sub2, if_pos h]

/-- Unfolding `sub2` on a non-matching pair. -/
theorem sub2_skip (a b : Char) (tl : List Char)
    (h : ((a.isLower || a.isDigit) && b.isUpper) = false) :
    sub2 (a :: b :: tl) = a :: sub2 (b :: tl) := by
  simp only [sub2]
  rw [if_neg]
  simp [h]

/-- Unfolding `sub1` on a match. -/
theorem sub1_match (c u d : Char) (tl : List Char)
    (h : c ≠ '\n' ∧ u.isUpper = true ∧ d.isLower = true) :
    sub1 (c :: u :: d :: tl) = c :: '_' :: u :: d :: skipRun tl := by
  simp only [sub1, if_pos h]

/-- Unfolding `sub1` when the guard fails. -/
theorem sub1_nomatch (c u d : Char) (tl : List Char)
    (h : ¬(c ≠ '\n' ∧ u.isUpper = true ∧ d.isLower = true)) :
    sub1 (c :: u :: d :: tl) = c :: sub1 (u :: d :: tl) := by
  simp only [sub1, if_neg h]

/-- When its second character is not uppercase, `sub1` copies the head. -/
theorem sub1_step_notupper (u d : Char) (tl : List Char) (h : d.isUpper = false) :
    sub1 (u :: d :: tl) = u :: sub1 (d :: tl) := by
  cases tl with
  | nil => rfl
  | cons t tl' =>
    apply sub1_nomatch
    rintro ⟨-, hd, -⟩
    rw [h] at hd
    exact Bool.false_ne_true hd

/-- `skipRun` copies the whole two-character remainder. -/
theorem skipRun_pair (c u : Char) : skipRun [c, u] = [c, u] := by
  simp only [skipRun]
  split <;> rfl

/-- `skipRun` copies a lowercase character and goes on. -/
theorem skipRun_low (c u d : Char) (tl : List Char) (h : c.isLower = true) :
    skipRun (c :: u :: d :: tl) = c :: skipRun (u :: d :: tl) := by
  simp only [skipRun, if_pos h]

/-- `skipRun` exits at a non-lowercase character into a fresh match. -/
theorem skipRun_exit_match (c u d : Char) (tl : List Char) (h1 : c.isLower = false)
    (h2 : c ≠ '\n' ∧ u.isUpper = true ∧ d.isLower = true) :
    skipRun (c :: u :: d :: tl) = c :: '_' :: u :: d :: skipRun tl := by
  simp only [skipRun]
  rw [if_neg (by simp [h1]), if_pos h2]

/-- `skipRun` exits at a non-lowercase character into a failing match. -/
theorem skipRun_exit_nomatch (c u d : Char) (tl : List Char) (h1 : c.isLower = false)
    (h2 : ¬(c ≠ '\n' ∧ u.isUpper = true ∧ d.isLower = true)) :
    skipRun (c :: u :: d :: tl) = c :: sub1 (u :: d :: tl) := by
  simp only [skipRun]
  rw [if_neg (by simp [h1]), if_neg h2]

/-- Unfolding `uscoreL` at an uppercase letter. -/
theorem uscore_up (c : Char) (tl : List Char) (h : c.isUpper = true) :
    uscoreL (c :: tl) = '_' :: c :: uscoreL tl := by
  simp only [uscoreL, if_pos h]

/-- Unfolding `uscoreL` at a non-uppercase character. -/
theorem uscore_low (c : Char) (tl : List Char) (h : c.isUpper = false) :
    uscoreL (c :: tl) = c :: uscoreL tl := by
  simp only [uscoreL]
  rw [if_neg]
  simp [h]

/-- Heads of good words are alphanumeric. -/
theorem goodTail_alnum_head (c : Char) (l : List Char)
    (h : goodTail (c :: l) = true) : isAlnumCh c = true := by
  simp only [goodTail, alnumAll, List.all_cons, Bool.and_eq_true] at h
  exact h.1.1

/-- Tails of good words are good. -/
theorem goodTail_tail (c : Char) (l : List Char)
    (h : goodTail (c :: l) = true) : goodTail l = true := by
  simp only [goodTail, alnumAll, List.all_cons, Bool.and_eq_true] at h ⊢
  refine ⟨h.1.2, ?_⟩
  rcases l with _ | ⟨b, tl⟩
  · rfl
  · have h2 := h.2
    simp only [noUU, Bool.and_eq_true] at h2
    exact h2.2

/-- Good words have no two adjacent uppercase letters. -/
theorem goodTail_not_uu (a b : Char) (l : List Char)
    (h : goodTail (a :: b :: l) = true) (ha : a.isUpper = true) :
    b.isUpper = false := by
  simp only [goodTail, noUU, Bool.and_eq_true] at h
  have h2 := h.2.1
  rw [ha] at h2
  simp only [Bool.true_and, Bool.not_eq_true'] at h2
  exact h2

/-- The underscore is not uppercase. -/
theorem underscore_not_upper : '_'.isUpper = false := rfl

/-- The underscore is neither lowercase nor a digit. -/
theorem underscore_not_lowdig : ('_'.isLower || '_'.isDigit) = false := rfl

/-- On a word of ASCII alphanumerics without adjacent uppercase letters, the
two regex passes compose to "insert an underscore before every uppercase
letter": the three conjuncts track the scan state (fresh scan whose head is
not uppercase, a fresh scan preceded by an emitted lowercase-or-digit
character, and the run-skipping state preceded by an emitted lowercase
character). -/
theorem camel_sub_spec : ∀ (n : Nat) (l : List Char), l.length ≤ n →
    goodTail l = true →
    ((headNotUpper l = true → sub2 (sub1 l) = uscoreL l) ∧
     (∀ x, (x.isLower || x.isDigit) = true →
        sub2 (x :: sub1 l) = x :: uscoreL l) ∧
     (∀ x, x.isLower = true → sub2 (x :: skipRun l) = x :: uscoreL l))
  | _, [], _, _ => ⟨fun _ => rfl, fun _ _ => rfl, fun _ _ => rfl⟩
  | _, [c], _, hg => by
    have hac := goodTail_alnum_head c [] hg
    refine ⟨?_, ?_, ?_⟩
    · intro hh
      simp only [headNotUpper, Bool.not_eq_true'] at hh
      show sub2 [c] = uscoreL [c]
      rw [uscore_low c [] hh]
      rfl
    · intro x hx
      show sub2 [x, c] = x :: uscoreL [c]
      rcases hcu : c.isUpper with _ | _
      · rw [sub2_skip x c [] (by simp [hcu]), uscore_low c [] hcu]
        rfl
      · rw [sub2_match x c [] (by simp [hx, hcu]), uscore_up c [] hcu]
        rfl
    · intro x hx
      show sub2 [x, c] = x :: uscoreL [c]
      rcases hcu : c.isUpper with _ | _
      · rw [sub2_skip x c [] (by simp [hcu]), uscore_low c [] hcu]
        rfl
      · rw [sub2_match x c [] (by simp [hcu, hx]), uscore_up c [] hcu]
        rfl
  | _, [c, u], _, hg => by
    have hac := goodTail_alnum_head c [u] hg
    have hbase : c.isUpper = false → sub2 [c, u] = uscoreL [c, u] := by
      intro hc
      have hclass := alnum_not_upper c hac hc
      rcases hu : u.isUpper with _ | _
      · rw [sub2_skip c u [] (by simp [hu]), uscore_low c [u] hc,
          uscore_low u [] hu]
        rfl
      · rw [sub2_match c u [] (by simp [hclass, hu]), uscore_low c [u] hc,
          uscore_up u [] hu]
        rfl
    have hp2 : ∀ x, (x.isLower || x.isDigit) = true →
        sub2 (x :: [c, u]) = x :: uscoreL [c, u] := by
      intro x hx
      rcases hc : c.isUpper with _ | _
      · rw [sub2_skip x c [u] (by simp [hc]), hbase hc]
      · have hu : u.isUpper = false := goodTail_not_uu c u [] hg hc
        rw [sub2_match x c [u] (by simp [hx, hc]), uscore_up c [u] hc,
          uscore_low u [] hu]
        rfl
    refine ⟨?_, ?_, ?_⟩
    · intro hh
      simp only [headNotUpper, Bool.not_eq_true'] at hh
      exact hbase hh
    · intro x hx
      exact hp2 x hx
    · intro x hx
      show sub2 (x :: skipRun [c, u]) = x :: uscoreL [c, u]
      rw [skipRun_pair c u]
      exact hp2 x (by simp [hx])
  | 0, c :: u :: d :: tl, hlen, _ => by
    simp only [List.length_cons] at hlen
    omega
  | n+1, c :: u :: d :: tl, hlen, hg => by
    have hlen3 : (u :: d :: tl).length ≤ n := by
      simp only [List.length_cons] at hlen ⊢
      omega
    have hlen1 : tl.length ≤ n := by
      simp only [List.length_cons] at hlen
      omega
    have hg1 : goodTail (u :: d :: tl) = true := goodTail_tail c _ hg
    have hg2 : goodTail (d :: tl) = true := goodTail_tail u _ hg1
    have hg3 : goodTail tl = true := goodTail_tail d _ hg2
    have hac := goodTail_alnum_head c _ hg
    have hne : c ≠ '\n' := alnum_ne_newline c hac
    by_cases hguard : u.isUpper = true ∧ d.isLower = true
    · obtain ⟨hu, hd⟩ := hguard
      have hcnu : c.isUpper = false := by
        rcases hcu : c.isUpper with _ | _
        · rfl
        · have h2 := goodTail_not_uu c u (d :: tl) hg hcu
          rw [hu] at h2
          exact absurd h2 (by simp)
      have hs1 : sub1 (c :: u :: d :: tl) = c :: '_' :: u :: d :: skipRun tl :=
        sub1_match c u d tl ⟨hne, hu, hd⟩
      have hih3 := (camel_sub_spec n tl hlen1 hg3).2.2
      have hcore : sub2 (c :: '_' :: u :: d :: skipRun tl)
          = c :: '_' :: u :: d :: uscoreL tl := by
        rw [sub2_skip c '_' _ (by rw [underscore_not_upper]; simp),
          sub2_skip '_' u _ (by rw [underscore_not_lowdig]; rfl),
          sub2_skip u d _ (by rw [upper_not_lowdig_eq u hu]; rfl),
          hih3 d hd]
      have hp1 : sub2 (sub1 (c :: u :: d :: tl)) = uscoreL (c :: u :: d :: tl) := by
        rw [hs1, hcore, uscore_low c _ hcnu, uscore_up u _ hu,
          uscore_low d _ (lower_not_upper d hd)]
      refine ⟨fun _ => hp1, ?_, ?_⟩
      · intro x hx
        rw [hs1, sub2_skip x c _ (by rw [hcnu]; simp), ← hs1, hp1]
      · intro x hx
        rcases hcl : c.isLower with _ | _
        · have he : skipRun (c :: u :: d :: tl) = c :: '_' :: u :: d :: skipRun tl :=
            skipRun_exit_match c u d tl hcl ⟨hne, hu, hd⟩
          rw [he, sub2_skip x c _ (by rw [hcnu]; simp), hcore,
            uscore_low c _ hcnu, uscore_up u _ hu,
            uscore_low d _ (lower_not_upper d hd)]
        · have he : skipRun (c :: u :: d :: tl) = c :: skipRun (u :: d :: tl) :=
            skipRun_low c u d tl hcl
          have hih3' := (camel_sub_spec n (u :: d :: tl) hlen3 hg1).2.2
          rw [he, sub2_skip x c _ (by rw [hcnu]; simp), hih3' c hcl,
            uscore_low c _ hcnu]
    · have hs1 : sub1 (c :: u :: d :: tl) = c :: sub1 (u :: d :: tl) :=
        sub1_nomatch c u d tl (by
          rintro ⟨-, hu, hd⟩
          exact hguard ⟨hu, hd⟩)
      have hih := camel_sub_spec n (u :: d :: tl) hlen3 hg1
      have hp1 : c.isUpper = false →
          sub2 (sub1 (c :: u :: d :: tl)) = uscoreL (c :: u :: d :: tl) := by
        intro hh
        have hclass := alnum_not_upper c hac hh
        rw [hs1, hih.2.1 c hclass, uscore_low c _ hh]
      have hp2 : ∀ x, (x.isLower || x.isDigit) = true →
          sub2 (x :: sub1 (c :: u :: d :: tl))
            = x :: uscoreL (c :: u :: d :: tl) := by
        intro x hx
        rcases hcu : c.isUpper with _ | _
        · rw [hs1, sub2_skip x c _ (by rw [hcu]; simp), ← hs1, hp1 hcu]
        · have hunu : u.isUpper = false := goodTail_not_uu c u (d :: tl) hg hcu
          rw [hs1, sub2_match x c _ (by simp [hx, hcu]),
            hih.1 (by simp only [headNotUpper, hunu]; rfl),
            uscore_up c _ hcu]
      refine ⟨?_, hp2, ?_⟩
      · intro hh
        simp only [headNotUpper, Bool.not_eq_true'] at hh
        exact hp1 hh
      · intro x hx
        rcases hcl : c.isLower with _ | _
        · have he : skipRun (c :: u :: d :: tl) = c :: sub1 (u :: d :: tl) :=
            skipRun_exit_nomatch c u d tl hcl (by
              rintro ⟨-, hu, hd⟩
              exact hguard ⟨hu, hd⟩)
          rw [he, ← hs1]
          exact hp2 x (by rw [hx]; rfl)
        · have he : skipRun (c :: u :: d :: tl) = c :: skipRun (u :: d :: tl) :=
            skipRun_low c u d tl hcl
          have hcnu : c.isUpper = false := lower_not_upper c hcl
          rw [he, sub2_skip x c _ (by rw [hcnu]; simp), hih.2.2 c hcl,
            uscore_low c _ hcnu]

/-- On a strict camelCase word, the full conversion is exactly "underscore
before every uppercase letter, then lowercase". -/
theorem convert_camel : ∀ l : List Char, strictCamelL l = true →
    convertL l = snakeExpand l
  | [], h => by simp [strictCamelL] at h
  | c :: rest, h => by
    simp only [strictCamelL, Bool.and_eq_true] at h
    obtain ⟨hc, hg⟩ := h
    have hP := (camel_sub_spec (c :: rest).length (c :: rest) le_rfl hg).1
    have hh : headNotUpper (c :: rest) = true := by
      simp [headNotUpper, lower_not_upper c hc]
    unfold convertL snakeExpand
    rw [hP hh]

/-- An alphanumeric character is not an underscore. -/
theorem alnum_ne_underscore (c : Char) (h : isAlnumCh c = true) : c ≠ '_' := by
  intro hc
  subst hc
  simp [isAlnumCh, Char.isUpper, Char.isLower, Char.isDigit] at h

/-- Lowercasing is injective on uppercase letters. -/
theorem toLower_inj_upper (a b : Char) (ha : a.isUpper = true)
    (hb : b.isUpper = true) (h : a.toLower = b.toLower) : a = b := by
  apply char_toNat_inj
  have h2 : a.toLower.toNat = b.toLower.toNat := by rw [h]
  rw [toNat_toLower_of_upper a ha, toNat_toLower_of_upper b hb] at h2
  omega

/-- The snake expansion is injective on alphanumeric words: the underscore
positions recover the uppercase positions, and lowercasing is invertible on
each letter class. -/
theorem snakeExpand_inj : ∀ a b : List Char, alnumAll a = true →
    alnumAll b = true → snakeExpand a = snakeExpand b → a = b
  | [], [], _, _, _ => rfl
  | [], y :: b', _, hb, h => by
    exfalso
    simp only [snakeExpand, uscoreL] at h
    split at h <;> simp at h
  | x :: a', [], ha, _, h => by
    exfalso
    simp only [snakeExpand, uscoreL] at h
    split at h <;> simp at h
  | x :: a', y :: b', ha, hb, h => by
    simp only [alnumAll, List.all_cons, Bool.and_eq_true] at ha hb
    obtain ⟨hax, ha'⟩ := ha
    obtain ⟨hby, hb'⟩ := hb
    rcases hx : x.isUpper with _ | _ <;> rcases hy : y.isUpper with _ | _
    · rw [snakeExpand, uscore_low x a' hx, snakeExpand, uscore_low y b' hy] at h
      simp only [List.map_cons] at h
      rw [toLower_of_not_upper x hx, toLower_of_not_upper y hy] at h
      injection h with h1 h2
      rw [h1, snakeExpand_inj a' b' ha' hb' h2]
    · exfalso
      rw [snakeExpand, uscore_low x a' hx, snakeExpand, uscore_up y b' hy] at h
      simp only [List.map_cons] at h
      rw [toLower_of_not_upper x hx] at h
      injection h with h1 h2
      rw [show ('_' : Char).toLower = '_' from rfl] at h1
      exact alnum_ne_underscore x hax h1
    · exfalso
      rw [snakeExpand, uscore_up x a' hx, snakeExpand, uscore_low y b' hy] at h
      simp only [List.map_cons] at h
      rw [toLower_of_not_upper y hy] at h
      injection h with h1 h2
      rw [show ('_' : Char).toLower = '_' from rfl] at h1
      exact alnum_ne_underscore y hby h1.symm
    · rw [snakeExpand, uscore_up x a' hx, snakeExpand, uscore_up y b' hy] at h
      simp only [List.map_cons] at h
      injection h with h1 h2
      injection h2 with h2 h3
      rw [toLower_inj_upper x y hx hy h2, snakeExpand_inj a' b' ha' hb' h3]

/-- Lowercased alphanumerics are snake characters. -/
theorem isSnakeCh_toLower (c : Char) (h : isAlnumCh c = true) :
    isSnakeCh (c.toLower) = true := by
  rcases hu : c.isUpper with _ | _
  · rw [toLower_of_not_upper c hu]
    have h2 := alnum_not_upper c h hu
    simp only [isSnakeCh]
    rw [Bool.or_eq_true, Bool.or_eq_true]
    rcases Bool.or_eq_true_iff.mp h2 with h3 | h3
    · exact Or.inl (Or.inl h3)
    · exact Or.inl (Or.inr h3)
  · obtain ⟨h1, h2⟩ := (isUpper_iff c).mp hu
    have h3 : c.toLower.isLower = true := by
      rw [isLower_iff, toNat_toLower_of_upper c hu]
      omega
    simp only [isSnakeCh]
    rw [Bool.or_eq_true, Bool.or_eq_true]
    exact Or.inl (Or.inl h3)

/-- Every character of the snake expansion of an alphanumeric word is a
snake character. -/
theorem snakeExpand_all : ∀ l : List Char, alnumAll l = true →
    (snakeExpand l).all isSnakeCh = true
  | [], _ => rfl
  | c :: tl, h => by
    simp only [alnumAll, List.all_cons, Bool.and_eq_true] at h
    obtain ⟨hc, htl⟩ := h
    have hrec := snakeExpand_all tl htl
    rcases hu : c.isUpper with _ | _
    · rw [snakeExpand, uscore_low c tl hu, List.map_cons]
      simp only [List.all_cons, Bool.and_eq_true]
      exact ⟨isSnakeCh_toLower c hc, hrec⟩
    · rw [snakeExpand, uscore_up c tl hu, List.map_cons, List.map_cons]
      simp only [List.all_cons, Bool.and_eq_true]
      exact ⟨rfl, isSnakeCh_toLower c hc, hrec⟩

/-- The snake expansion of a strict camelCase word is snake_case. -/
theorem snakeExpand_snake : ∀ l : List Char, strictCamelL l = true →
    isSnakeL (snakeExpand l) = true
  | [], h => by simp [strictCamelL] at h
  | c :: tl, h => by
    simp only [strictCamelL, Bool.and_eq_true] at h
    obtain ⟨hc, hg⟩ := h
    have hu : c.isUpper = false := lower_not_upper c hc
    have hall : alnumAll (c :: tl) = true := by
      simp only [goodTail, Bool.and_eq_true] at hg
      exact hg.1
    rw [snakeExpand, uscore_low c tl hu, List.map_cons,
      toLower_of_not_upper c hu]
    simp only [isSnakeL, Bool.and_eq_true]
    refine ⟨hc, ?_⟩
    have h2 := snakeExpand_all (c :: tl) hall
    rw [snakeExpand, uscore_low c tl hu, List.map_cons,
      toLower_of_not_upper c hu] at h2
    exact h2

/-- Strict camelCase words are alphanumeric. -/
theorem strictCamel_alnum (l : List Char) (h : strictCamelL l = true) :
    alnumAll l = true := by
  cases l with
  | nil => simp [strictCamelL] at h
  | cons c rest =>
    simp only [strictCamelL, goodTail, Bool.and_eq_true] at h
    exact h.2.1

/-- The conversion is injective on strict camelCase strings. -/
theorem convertStr_inj_camel (a b : String) (ha : strictCamelS a = true)
    (hb : strictCamelS b = true) (h : convertStr a = convertStr b) : a = b := by
  have h2 : convertL a.data = convertL b.data := by
    have h3 := congrArg String.data h
    simpa [convertStr] using h3
  rw [convert_camel a.data ha, convert_camel b.data hb] at h2
  have h4 := snakeExpand_inj a.data b.data (strictCamel_alnum a.data ha)
    (strictCamel_alnum b.data hb) h2
  exact congrArg String.mk (by simpa using h4)

/-- The conversion of a strict camelCase string is snake_case. -/
theorem convertStr_snake (s : String) (h : strictCamelS s = true) :
    isSnakeS (convertStr s) = true := by
  show isSnakeL (convertStr s).data = true
  have h2 : (convertStr s).data = convertL s.data := rfl
  rw [h2, convert_camel s.data h]
  exact snakeExpand_snake s.data h

mutual

/-- Every key, at every depth, is strict camelCase. -/
def allKeysCamel : Json → Bool
  | .obj o => allKeysCamelObj o
  | .arr l => allKeysCamelArr l
  | _ => true

/-- List version of `allKeysCamel`. -/
def allKeysCamelArr : JsonList → Bool
  | .nil => true
  | .cons x rest => allKeysCamel x && allKeysCamelArr rest

/-- Object version of `allKeysCamel`. -/
def allKeysCamelObj : JsonObj → Bool
  | .onil => true
  | .ocons k v rest => strictCamelS k && allKeysCamel v && allKeysCamelObj rest

end

mutual

/-- Every key, at every depth, is snake_case. -/
def allKeysSnake : Json → Bool
  | .obj o => allKeysSnakeObj o
  | .arr l => allKeysSnakeArr l
  | _ => true

/-- List version of `allKeysSnake`. -/
def allKeysSnakeArr : JsonList → Bool
  | .nil => true
  | .cons x rest => allKeysSnake x && allKeysSnakeArr rest

/-- Object version of `allKeysSnake`. -/
def allKeysSnakeObj : JsonObj → Bool
  | .onil => true
  | .ocons k v rest => isSnakeS k && allKeysSnake v && allKeysSnakeObj rest

end

/-- Pairwise distinct keys in one object. -/
def noDupKeys : JsonObj → Bool
  | .onil => true
  | .ocons k _ rest => !(JsonObj.hasKey rest k) && noDupKeys rest

mutual

/-- Every object, at every depth, has pairwise distinct keys (true of any
value produced by parsing JSON into Python dicts). -/
def wfDicts : Json → Bool
  | .obj o => noDupKeys o && wfDictsObj o
  | .arr l => wfDictsArr l
  | _ => true

/-- List version of `wfDicts`. -/
def wfDictsArr : JsonList → Bool
  | .nil => true
  | .cons x rest => wfDicts x && wfDictsArr rest

/-- Object version of `wfDicts` (the values). -/
def wfDictsObj : JsonObj → Bool
  | .onil => true
  | .ocons _ v rest => wfDicts v && wfDictsObj rest

end

mutual

/-- The purely structural key map: convert every key at every depth,
leaving shape and non-key values untouched (the specification's reading of
normalization, with no dict rebuilding). -/
def jmapKeys : Json → Json
  | .obj o => .obj (jmapKeysObj o)
  | .arr l => .arr (jmapKeysArr l)
  | .str s => .str s
  | .num n => .num n
  | .bool b => .bool b
  | .null => .null

/-- List version of `jmapKeys`. -/
def jmapKeysArr : JsonList → JsonList
  | .nil => .nil
  | .cons x rest => .cons (jmapKeys x) (jmapKeysArr rest)

/-- Object version of `jmapKeys`. -/
def jmapKeysObj : JsonObj → JsonObj
  | .onil => .onil
  | .ocons k v rest => .ocons (convertStr k) (jmapKeys v) (jmapKeysObj rest)

end

/-- Key membership matches `okeys`. -/
theorem hasKey_iff_mem : ∀ (o : JsonObj) (k : String),
    JsonObj.hasKey o k = true ↔ k ∈ JsonObj.okeys o
  | .onil, k => by simp [JsonObj.hasKey, JsonObj.okeys]
  | .ocons k' v rest, k => by
    simp only [JsonObj.hasKey, JsonObj.okeys, Bool.or_eq_true, decide_eq_true_eq,
      List.mem_cons, hasKey_iff_mem rest k]
    constructor
    · rintro (h | h)
      · exact Or.inl h.symm
      · exact Or.inr h
    · rintro (h | h)
      · exact Or.inl h.symm
      · exact Or.inr h

/-- Appending objects appends their key lists. -/
theorem okeys_oappend : ∀ a b : JsonObj,
    JsonObj.okeys (JsonObj.oappend a b) = JsonObj.okeys a ++ JsonObj.okeys b
  | .onil, b => rfl
  | .ocons k v rest, b => by
    simp only [JsonObj.oappend, JsonObj.okeys, okeys_oappend rest b,
      List.cons_append]

/-- Appending the empty object on the right is the identity. -/
theorem oappend_onil : ∀ o : JsonObj, JsonObj.oappend o .onil = o
  | .onil => rfl
  | .ocons k v rest => by
    simp only [JsonObj.oappend, oappend_onil rest]

/-- Inserting a fresh key appends it. -/
theorem dictInsert_not_mem : ∀ (o : JsonObj) (k : String) (v : Json),
    JsonObj.hasKey o k = false →
    JsonObj.dictInsert o k v = JsonObj.oappend o (.ocons k v .onil)
  | .onil, k, v, _ => rfl
  | .ocons k' v' rest, k, v, h => by
    simp only [JsonObj.hasKey, Bool.or_eq_false_iff, decide_eq_false_iff_not] at h
    simp only [JsonObj.dictInsert, JsonObj.oappend]
    rw [if_neg h.1, dictInsert_not_mem rest k v h.2]

/-- Object append is associative. -/
theorem oappend_assoc : ∀ a b c : JsonObj,
    JsonObj.oappend (JsonObj.oappend a b) c
      = JsonObj.oappend a (JsonObj.oappend b c)
  | .onil, _, _ => rfl
  | .ocons k v rest, b, c => by
    simp only [JsonObj.oappend, oappend_assoc rest b c]

/-- Building a dict from pairwise-fresh pairs appends them in order. -/
theorem dictBuild_nodup_eq : ∀ (l acc : JsonObj),
    (JsonObj.okeys acc ++ JsonObj.okeys l).Nodup →
    JsonObj.dictBuild acc l = JsonObj.oappend acc l
  | .onil, acc, _ => (oappend_onil acc).symm
  | .ocons k v rest, acc, h => by
    simp only [JsonObj.okeys] at h
    have hk : JsonObj.hasKey acc k = false := by
      rcases hb : JsonObj.hasKey acc k with _ | _
      · rfl
      · exfalso
        have hmem := (hasKey_iff_mem acc k).mp hb
        have hdisj := (List.nodup_append.mp h).2.2
        exact hdisj hmem (by simp)
    have hsh : JsonObj.okeys acc ++ k :: JsonObj.okeys rest
        = JsonObj.okeys (JsonObj.oappend acc (.ocons k v .onil))
          ++ JsonObj.okeys rest := by
      rw [okeys_oappend]
      simp [JsonObj.okeys]
    simp only [JsonObj.dictBuild]
    rw [dictInsert_not_mem acc k v hk,
      dictBuild_nodup_eq rest (JsonObj.oappend acc (.ocons k v .onil))
        (by rw [← hsh]; exact h),
      oappend_assoc]
    rfl

/-- Mapped objects have the converted keys. -/
theorem okeys_jmapKeysObj : ∀ o : JsonObj,
    JsonObj.okeys (jmapKeysObj o) = (JsonObj.okeys o).map convertStr
  | .onil => rfl
  | .ocons k v rest => by
    simp only [jmapKeysObj, JsonObj.okeys, okeys_jmapKeysObj rest, List.map_cons]

/-- Camel-keyed objects have strict camelCase keys. -/
theorem allKeysCamelObj_keys : ∀ o : JsonObj, allKeysCamelObj o = true →
    ∀ k ∈ JsonObj.okeys o, strictCamelS k = true
  | .onil, _, k, hk => by simp [JsonObj.okeys] at hk
  | .ocons k' v rest, h, k, hk => by
    simp only [allKeysCamelObj, Bool.and_eq_true] at h
    simp only [JsonObj.okeys, List.mem_cons] at hk
    rcases hk with rfl | hk
    · exact h.1.1
    · exact allKeysCamelObj_keys rest h.2 k hk

/-- The Boolean distinct-keys check gives `Nodup`. -/
theorem noDupKeys_nodup : ∀ o : JsonObj, noDupKeys o = true →
    (JsonObj.okeys o).Nodup
  | .onil, _ => List.nodup_nil
  | .ocons k v rest, h => by
    simp only [noDupKeys, Bool.and_eq_true, Bool.not_eq_true'] at h
    obtain ⟨h1, h2⟩ := h
    simp only [JsonObj.okeys, List.nodup_cons]
    refine ⟨?_, noDupKeys_nodup rest h2⟩
    intro hmem
    rw [(hasKey_iff_mem rest k).mpr hmem] at h1
    simp at h1

mutual

/-- On values whose keys are all strict camelCase and whose objects have
distinct keys, the dict-rebuilding normalization is exactly the structural
key map: shape and non-key values are preserved and every key is converted
in place. -/
theorem camelToSnake_eq_jmapKeys : ∀ v : Json, allKeysCamel v = true →
    wfDicts v = true → camelToSnake v = jmapKeys v
  | .null, _, _ => rfl
  | .bool _, _, _ => rfl
  | .num _, _, _ => rfl
  | .str _, _, _ => rfl
  | .arr l, hc, hw => by
    simp only [allKeysCamel] at hc
    simp only [wfDicts] at hw
    simp only [camelToSnake, jmapKeys]
    rw [camelToSnakeArr_eq l hc hw]
  | .obj o, hc, hw => by
    simp only [allKeysCamel] at hc
    simp only [wfDicts, Bool.and_eq_true] at hw
    simp only [camelToSnake, jmapKeys]
    rw [camelToSnakeObj_eq o hc hw.2]
    rw [dictBuild_nodup_eq (jmapKeysObj o) .onil (by
      simp only [JsonObj.okeys, List.nil_append]
      rw [okeys_jmapKeysObj]
      exact List.Nodup.map_on (fun x hx y hy hxy =>
        convertStr_inj_camel x y (allKeysCamelObj_keys o hc x hx)
          (allKeysCamelObj_keys o hc y hy) hxy)
        (noDupKeys_nodup o hw.1))]
    rfl

/-- List version of `camelToSnake_eq_jmapKeys`. -/
theorem camelToSnakeArr_eq : ∀ l : JsonList, allKeysCamelArr l = true →
    wfDictsArr l = true → camelToSnakeArr l = jmapKeysArr l
  | .nil, _, _ => rfl
  | .cons x rest, hc, hw => by
    simp only [allKeysCamelArr, Bool.and_eq_true] at hc
    simp only [wfDictsArr, Bool.and_eq_true] at hw
    simp only [camelToSnakeArr, jmapKeysArr]
    rw [camelToSnake_eq_jmapKeys x hc.1 hw.1, camelToSnakeArr_eq rest hc.2 hw.2]

/-- Object version of `camelToSnake_eq_jmapKeys`. -/
theorem camelToSnakeObj_eq : ∀ o : JsonObj, allKeysCamelObj o = true →
    wfDictsObj o = true → camelToSnakeObj o = jmapKeysObj o
  | .onil, _, _ => rfl
  | .ocons k v rest, hc, hw => by
    simp only [allKeysCamelObj, Bool.and_eq_true] at hc
    simp only [wfDictsObj, Bool.and_eq_true] at hw
    simp only [camelToSnakeObj, jmapKeysObj]
    rw [camelToSnake_eq_jmapKeys v hc.1.2 hw.1, camelToSnakeObj_eq rest hc.2 hw.2]

end

mutual

/-- The structural key map sends camel keys to snake keys everywhere. -/
theorem jmapKeys_snake : ∀ v : Json, allKeysCamel v = true →
    allKeysSnake (jmapKeys v) = true
  | .null, _ => rfl
  | .bool _, _ => rfl
  | .num _, _ => rfl
  | .str _, _ => rfl
  | .arr l, hc => by
    simp only [allKeysCamel] at hc
    simp only [jmapKeys, allKeysSnake]
    exact jmapKeysArr_snake l hc
  | .obj o, hc => by
    simp only [allKeysCamel] at hc
    simp only [jmapKeys, allKeysSnake]
    exact jmapKeysObj_snake o hc

/-- List version of `jmapKeys_snake`. -/
theorem jmapKeysArr_snake : ∀ l : JsonList, allKeysCamelArr l = true →
    allKeysSnakeArr (jmapKeysArr l) = true
  | .nil, _ => rfl
  | .cons x rest, hc => by
    simp only [allKeysCamelArr, Bool.and_eq_true] at hc
    simp only [jmapKeysArr, allKeysSnakeArr, Bool.and_eq_true]
    exact ⟨jmapKeys_snake x hc.1, jmapKeysArr_snake rest hc.2⟩

/-- Object version of `jmapKeys_snake`. -/
theorem jmapKeysObj_snake : ∀ o : JsonObj, allKeysCamelObj o = true →
    allKeysSnakeObj (jmapKeysObj o) = true
  | .onil, _ => rfl
  | .ocons k v rest, hc => by
    simp only [allKeysCamelObj, Bool.and_eq_true] at hc
    simp only [jmapKeysObj, allKeysSnakeObj, Bool.and_eq_true]
    exact ⟨⟨convertStr_snake k hc.1.1, jmapKeys_snake v hc.1.2⟩,
      jmapKeysObj_snake rest hc.2⟩

end

/-- C2 (amended): for every JSON body of nested objects and sequences whose
keys are strict camelCase (lowercase first letter, alphanumeric, no two
adjacent uppercase letters — so that no two distinct keys collide after
conversion) and whose objects have distinct keys, the normalization rewrites
every key at every nesting depth to snake_case while preserving all non-key
values and the object/sequence structure unchanged. -/
theorem camel_to_snake_normalization (v : Json) (h1 : allKeysCamel v = true)
    (h2 : wfDicts v = true) :
    camelToSnake v = jmapKeys v ∧ allKeysSnake (camelToSnake v) = true :=
  ⟨camelToSnake_eq_jmapKeys v h1 h2, by
    rw [camelToSnake_eq_jmapKeys v h1 h2]
    exact jmapKeys_snake v h1⟩

/-- Witness for C2 on a nested body with camelCase keys at two depths. -/
theorem camel_to_snake_normalization_witness :
    camelToSnake (.obj (.ocons "videoId" (.num 1)
        (.ocons "ogUrl" (.arr (.cons
          (.obj (.ocons "countCharacters" (.num 7) .onil)) .nil)) .onil)))
      = jmapKeys (.obj (.ocons "videoId" (.num 1)
        (.ocons "ogUrl" (.arr (.cons
          (.obj (.ocons "countCharacters" (.num 7) .onil)) .nil)) .onil))) ∧
    allKeysSnake (camelToSnake (.obj (.ocons "videoId" (.num 1)
        (.ocons "ogUrl" (.arr (.cons
          (.obj (.ocons "countCharacters" (.num 7) .onil)) .nil)) .onil))))
      = true ∧
    jmapKeys (.obj (.ocons "videoId" (.num 1)
        (.ocons "ogUrl" (.arr (.cons
          (.obj (.ocons "countCharacters" (.num 7) .onil)) .nil)) .onil)))
      = .obj (.ocons "video_id" (.num 1)
        (.ocons "og_url" (.arr (.cons
          (.obj (.ocons "count_characters" (.num 7) .onil)) .nil)) .onil)) :=
  ⟨(camel_to_snake_normalization _ (by decide) (by decide)).1,
   (camel_to_snake_normalization _ (by decide) (by decide)).2,
   rfl⟩

/-- Counterexample to C2 as stated: the (loose) camelCase keys `videoId` and
`videoID` both convert to `video_id`, so the normalized object loses an
entry — values and structure are not preserved. -/
theorem camel_to_snake_counterexample :
    looseCamelS "videoId" = true ∧ looseCamelS "videoID" = true ∧
    camelToSnake (.obj (.ocons "videoId" (.num 1)
        (.ocons "videoID" (.num 2) .onil)))
      = .obj (.ocons "video_id" (.num 2) .onil) :=
  ⟨by decide, by decide, rfl⟩

/-!
Idempotence of the normalization (claim C10): after one pass no ASCII
uppercase letters remain, so both regexes find nothing, lowercasing is
idempotent, and rebuilt dicts have distinct keys that convert to themselves.
-/

/-- Words without uppercase letters are untouched by the first regex and by
the run-skipping scan. -/
theorem sub1_id_of_noUpper : ∀ (n : Nat) (l : List Char), l.length ≤ n →
    l.all (fun c => !c.isUpper) = true → sub1 l = l ∧ skipRun l = l
  | _, [], _, _ => ⟨rfl, rfl⟩
  | _, [c], _, _ => ⟨rfl, rfl⟩
  | _, [c, u], _, _ => ⟨rfl, skipRun_pair c u⟩
  | 0, c :: u :: d :: tl, hlen, _ => by
    simp only [List.length_cons] at hlen
    omega
  | n+1, c :: u :: d :: tl, hlen, h => by
    simp only [List.all_cons, Bool.and_eq_true, Bool.not_eq_true'] at h
    obtain ⟨hc, hu, hd, htl⟩ := h
    have hlen3 : (u :: d :: tl).length ≤ n := by
      simp only [List.length_cons] at hlen ⊢
      omega
    have hall : (u :: d :: tl).all (fun c => !c.isUpper) = true := by
      simp only [List.all_cons, Bool.and_eq_true, Bool.not_eq_true']
      exact ⟨hu, hd, htl⟩
    have hrec := sub1_id_of_noUpper n (u :: d :: tl) hlen3 hall
    have hng : ¬(c ≠ '\n' ∧ u.isUpper = true ∧ d.isLower = true) := by
      rintro ⟨-, hu', -⟩
      rw [hu] at hu'
      exact Bool.false_ne_true hu'
    constructor
    · rw [sub1_nomatch c u d tl hng, hrec.1]
    · rcases hcl : c.isLower with _ | _
      · rw [skipRun_exit_nomatch c u d tl hcl hng, hrec.1]
      · rw [skipRun_low c u d tl hcl, hrec.2]

/-- Words without uppercase letters are untouched by the second regex. -/
theorem sub2_id_of_noUpper : ∀ l : List Char,
    l.all (fun c => !c.isUpper) = true → sub2 l = l
  | [], _ => rfl
  | [c], _ => rfl
  | a :: b :: tl, h => by
    simp only [List.all_cons, Bool.and_eq_true, Bool.not_eq_true'] at h
    obtain ⟨ha, hb, htl⟩ := h
    rw [sub2_skip a b tl (by simp [hb]),
      sub2_id_of_noUpper (b :: tl) (by
        simp only [List.all_cons, Bool.and_eq_true, Bool.not_eq_true']
        exact ⟨hb, htl⟩)]

/-- Converted words contain no uppercase letters. -/
theorem convertL_noUpper (l : List Char) :
    (convertL l).all (fun c => !c.isUpper) = true := by
  unfold convertL
  rw [List.all_map]
  apply List.all_eq_true.mpr
  intro c _
  simp only [Function.comp_apply, Bool.not_eq_true']
  exact isUpper_toLower c

/-- Lowercasing is idempotent. -/
theorem toLower_idem (c : Char) : c.toLower.toLower = c.toLower :=
  toLower_of_not_upper c.toLower (isUpper_toLower c)

/-- The conversion is idempotent on character lists. -/
theorem convertL_idem (l : List Char) : convertL (convertL l) = convertL l := by
  have h1 := convertL_noUpper l
  have h2 := sub1_id_of_noUpper (convertL l).length (convertL l) le_rfl h1
  have h4 := sub2_id_of_noUpper (convertL l) h1
  show (sub2 (sub1 (convertL l))).map Char.toLower = convertL l
  rw [h2.1, h4]
  show (((sub2 (sub1 l)).map Char.toLower).map Char.toLower) = convertL l
  rw [List.map_map]
  have h5 : Char.toLower ∘ Char.toLower = Char.toLower := by
    funext c
    exact toLower_idem c
  rw [h5]
  rfl

/-- The conversion is idempotent on strings. -/
theorem convertStr_idem (s : String) : convertStr (convertStr s) = convertStr s := by
  apply congrArg String.mk
  show convertL (convertStr s).data = convertL s.data
  have h : (convertStr s).data = convertL s.data := rfl
  rw [h, convertL_idem]

/-- Membership of a key/value pair in an object. -/
def omem (k : String) (v : Json) : JsonObj → Prop
  | .onil => False
  | .ocons k' v' rest => (k = k' ∧ v = v') ∨ omem k v rest

/-- Pairs of an updated dict come from the dict or are the update. -/
theorem omem_dictInsert : ∀ (o : JsonObj) (a : String) (b : Json) (k : String)
    (v : Json), omem k v (JsonObj.dictInsert o a b) →
    omem k v o ∨ (k = a ∧ v = b)
  | .onil, a, b, k, v, h => by
    simp only [JsonObj.dictInsert, omem] at h
    rcases h with h | h
    · exact Or.inr h
    · exact absurd h (by simp [omem])
  | .ocons k' v' rest, a, b, k, v, h => by
    simp only [JsonObj.dictInsert] at h
    by_cases hk : k' = a
    · rw [if_pos hk] at h
      simp only [omem] at h
      rcases h with ⟨h1, h2⟩ | h
      · exact Or.inr ⟨h1.trans hk, h2⟩
      · exact Or.inl (Or.inr h)
    · rw [if_neg hk] at h
      simp only [omem] at h
      rcases h with h | h
      · exact Or.inl (Or.inl h)
      · rcases omem_dictInsert rest a b k v h with h2 | h2
        · exact Or.inl (Or.inr h2)
        · exact Or.inr h2

/-- Pairs of a built dict come from the accumulator or the pair list. -/
theorem omem_dictBuild : ∀ (l acc : JsonObj) (k : String) (v : Json),
    omem k v (JsonObj.dictBuild acc l) → omem k v acc ∨ omem k v l
  | .onil, acc, k, v, h => Or.inl h
  | .ocons a b rest, acc, k, v, h => by
    simp only [JsonObj.dictBuild] at h
    rcases omem_dictBuild rest (JsonObj.dictInsert acc a b) k v h with h2 | h2
    · rcases omem_dictInsert acc a b k v h2 with h3 | h3
      · exact Or.inl h3
      · exact Or.inr (Or.inl h3)
    · exact Or.inr (Or.inr h2)

/-- An object whose pairs are all fixed points is fixed by the pairwise
conversion. -/
theorem camelToSnakeObj_id : ∀ o : JsonObj,
    (∀ k v, omem k v o → convertStr k = k ∧ camelToSnake v = v) →
    camelToSnakeObj o = o
  | .onil, _ => rfl
  | .ocons k v rest, h => by
    obtain ⟨hk, hv⟩ := h k v (Or.inl ⟨rfl, rfl⟩)
    simp only [camelToSnakeObj]
    rw [hk, hv, camelToSnakeObj_id rest (fun k' v' hm => h k' v' (Or.inr hm))]

/-- Keys of an updated dict. -/
theorem okeys_dictInsert : ∀ (o : JsonObj) (k : String) (v : Json),
    JsonObj.okeys (JsonObj.dictInsert o k v)
      = if JsonObj.hasKey o k = true then JsonObj.okeys o
        else JsonObj.okeys o ++ [k]
  | .onil, k, v => rfl
  | .ocons k' v' rest, k, v => by
    by_cases hk : k' = k
    · simp only [JsonObj.dictInsert, if_pos hk, JsonObj.okeys, JsonObj.hasKey]
      rw [if_pos (by simp [hk])]
    · simp only [JsonObj.dictInsert, if_neg hk, JsonObj.okeys, JsonObj.hasKey,
        okeys_dictInsert rest k v]
      by_cases hr : JsonObj.hasKey rest k = true
      · rw [if_pos hr, if_pos (by simp [hr])]
      · rw [if_neg hr, if_neg (by simp [hk, hr]), List.cons_append]

/-- Dict building preserves distinct keys. -/
theorem nodup_dictBuild : ∀ (l acc : JsonObj), (JsonObj.okeys acc).Nodup →
    (JsonObj.okeys (JsonObj.dictBuild acc l)).Nodup
  | .onil, _, h => h
  | .ocons k v rest, acc, h => by
    simp only [JsonObj.dictBuild]
    apply nodup_dictBuild rest
    rw [okeys_dictInsert]
    by_cases hc : JsonObj.hasKey acc k = true
    · rw [if_pos hc]
      exact h
    · rw [if_neg hc]
      rw [List.nodup_append]
      refine ⟨h, List.nodup_singleton k, ?_⟩
      intro a ha hak
      simp only [List.mem_singleton] at hak
      subst hak
      exact hc ((hasKey_iff_mem acc a).mpr ha)

mutual

/-- Applying the normalization twice is the same as applying it once. -/
theorem camelToSnake_idem : ∀ v : Json,
    camelToSnake (camelToSnake v) = camelToSnake v
  | .null => rfl
  | .bool _ => rfl
  | .num _ => rfl
  | .str _ => rfl
  | .arr l => by
    simp only [camelToSnake]
    rw [camelToSnakeArr_idem l]
  | .obj o => by
    simp only [camelToSnake]
    have h1 : camelToSnakeObj (JsonObj.dictBuild .onil (camelToSnakeObj o))
        = JsonObj.dictBuild .onil (camelToSnakeObj o) := by
      apply camelToSnakeObj_id
      intro k v hm
      rcases omem_dictBuild (camelToSnakeObj o) .onil k v hm with h | h
      · exact absurd h (by simp [omem])
      · exact camelToSnakeObj_fixed o k v h
    rw [h1, dictBuild_nodup_eq (JsonObj.dictBuild .onil (camelToSnakeObj o)) .onil
      (by
        simp only [JsonObj.okeys, List.nil_append]
        exact nodup_dictBuild (camelToSnakeObj o) .onil List.nodup_nil)]
    rfl

/-- List version of idempotence. -/
theorem camelToSnakeArr_idem : ∀ l : JsonList,
    camelToSnakeArr (camelToSnakeArr l) = camelToSnakeArr l
  | .nil => rfl
  | .cons x rest => by
    simp only [camelToSnakeArr]
    rw [camelToSnake_idem x, camelToSnakeArr_idem rest]

/-- Every pair produced by the pairwise conversion is a fixed point. -/
theorem camelToSnakeObj_fixed : ∀ (o : JsonObj) (k : String) (v : Json),
    omem k v (camelToSnakeObj o) → convertStr k = k ∧ camelToSnake v = v
  | .onil, k, v, h => absurd h (by simp [camelToSnakeObj, omem])
  | .ocons k₀ v₀ rest, k, v, h => by
    simp only [camelToSnakeObj, omem] at h
    rcases h with ⟨h1, h2⟩ | h
    · subst h1
      subst h2
      exact ⟨convertStr_idem k₀, camelToSnake_idem v₀⟩
    · exact camelToSnakeObj_fixed rest k v h

end

/-- C10: the camelCase-to-snake_case key normalization is idempotent: for
every JSON-like value (any nesting of objects, sequences and scalars),
applying the normalization twice yields the same result as applying it
once. -/
theorem camel_to_snake_idempotent (v : Json) :
    camelToSnake (camelToSnake v) = camelToSnake v :=
  camelToSnake_idem v

end Supadata
